import Mathlib

/-!
Verification development for the upload-analyzer repository (Rust, wasm).

Modelling conventions:
* A Rust byte slice and a Rust string are both modelled as `RStr := List Nat`
  (the bytes; a Rust `String` is exactly its UTF-8 bytes, and every byte-index
  operation of the source then matches list indexing directly).
* `HashMap<String, String>` is modelled as an association list `Meta` with
  `minsert` replacing in place (Rust insert semantics: last writer wins).
* External crates (cfb, goblin, pelite, plist, ar, tar, flate2) and the
  Unicode character tables of Rust `std` (`char::is_alphabetic`,
  `char::is_alphanumeric`, `char::is_numeric`, `str::to_lowercase`,
  `char::to_uppercase`) are modelled as parameters collected in a context
  structure `Ctx`; the concrete `asciiCtx` instantiation used by witnesses
  agrees with Rust on pure-ASCII data.
* `String::from_utf8` and `String::from_utf8_lossy` are modelled exactly
  (strict UTF-8 validation, and replacement of maximal invalid subparts).
* Rust `&str` byte-range slicing aborts when an index is not a char
  boundary; the DMG heuristics can hit this, so they return `Option`,
  `none` meaning the extraction aborts instead of returning.
-/

namespace UA

/-- Bytes of a Rust byte slice or of a Rust string (its UTF-8 encoding). -/
abbrev RStr := List Nat

/-- Concatenate a list of lists. -/
def catLists {α : Type} : List (List α) → List α
  | [] => []
  | a :: t => a ++ catLists t

/-- UTF-8 encoding of one scalar value. -/
def encodeChar (c : Char) : RStr :=
  let n := c.toNat
  if n < 0x80 then [n]
  else if n < 0x800 then [0xC0 + n / 64, 0x80 + n % 64]
  else if n < 0x10000 then [0xE0 + n / 4096, 0x80 + (n / 64) % 64, 0x80 + n % 64]
  else [0xF0 + n / 262144, 0x80 + (n / 4096) % 64, 0x80 + (n / 64) % 64, 0x80 + n % 64]

/-- UTF-8 bytes of a list of characters. -/
def ofChars (cs : List Char) : RStr := catLists (cs.map encodeChar)

/-- UTF-8 bytes of a Lean string literal; used for the string literals of the source. -/
def S (s : String) : RStr := ofChars s.toList

/-- The replacement character U+FFFD. -/
def repl : Char := Char.ofNat 0xFFFD

/-- Second-byte lower bound of a UTF-8 sequence led by `b` (overlong/surrogate guards). -/
def utf8Lo1 (b : Nat) : Nat := if b = 0xE0 then 0xA0 else if b = 0xF0 then 0x90 else 0x80

/-- Second-byte upper bound of a UTF-8 sequence led by `b` (surrogate/max guards). -/
def utf8Hi1 (b : Nat) : Nat := if b = 0xED then 0x9F else if b = 0xF4 then 0x8F else 0xBF

/-- Continuation-byte test `0x80..=0xBF`. -/
def utf8Cont (c : Nat) : Prop := 0x80 ≤ c ∧ c ≤ 0xBF

instance (c : Nat) : Decidable (utf8Cont c) := by unfold utf8Cont; infer_instance

/-- Characters of `String::from_utf8_lossy`.  The accepted sequences are exactly
those of Rust `core::str` validation (no overlongs, no surrogates, max U+10FFFF);
an invalid maximal subpart is replaced by one U+FFFD and decoding resumes at the
offending byte, as Rust does. -/
def utf8Lossy : List Nat → List Char
  | [] => []
  | b :: rest =>
    if b < 0x80 then Char.ofNat b :: utf8Lossy rest
    else if 0xC2 ≤ b ∧ b ≤ 0xDF then
      match rest with
      | c1 :: rest1 =>
        if utf8Cont c1 then Char.ofNat ((b - 0xC0) * 64 + (c1 - 0x80)) :: utf8Lossy rest1
        else repl :: utf8Lossy (c1 :: rest1)
      | [] => [repl]
    else if 0xE0 ≤ b ∧ b ≤ 0xEF then
      match rest with
      | c1 :: rest1 =>
        if utf8Lo1 b ≤ c1 ∧ c1 ≤ utf8Hi1 b then
          match rest1 with
          | c2 :: rest2 =>
            if utf8Cont c2 then
              Char.ofNat ((b - 0xE0) * 4096 + (c1 - 0x80) * 64 + (c2 - 0x80)) :: utf8Lossy rest2
            else repl :: utf8Lossy (c2 :: rest2)
          | [] => [repl]
        else repl :: utf8Lossy (c1 :: rest1)
      | [] => [repl]
    else if 0xF0 ≤ b ∧ b ≤ 0xF4 then
      match rest with
      | c1 :: rest1 =>
        if utf8Lo1 b ≤ c1 ∧ c1 ≤ utf8Hi1 b then
          match rest1 with
          | c2 :: rest2 =>
            if utf8Cont c2 then
              match rest2 with
              | c3 :: rest3 =>
                if utf8Cont c3 then
                  Char.ofNat ((b - 0xF0) * 262144 + (c1 - 0x80) * 4096 +
                    (c2 - 0x80) * 64 + (c3 - 0x80)) :: utf8Lossy rest3
                else repl :: utf8Lossy (c3 :: rest3)
              | [] => [repl]
            else repl :: utf8Lossy (c2 :: rest2)
          | [] => [repl]
        else repl :: utf8Lossy (c1 :: rest1)
      | [] => [repl]
    else repl :: utf8Lossy rest

/-- Strict UTF-8 decoding, as in `String::from_utf8(..).ok()`: the same accepted
sequences as `utf8Lossy`, but any invalid sequence rejects the whole input. -/
def utf8Decode : List Nat → Option (List Char)
  | [] => some []
  | b :: rest =>
    if b < 0x80 then (utf8Decode rest).map (fun cs => Char.ofNat b :: cs)
    else if 0xC2 ≤ b ∧ b ≤ 0xDF then
      match rest with
      | c1 :: rest1 =>
        if utf8Cont c1 then
          (utf8Decode rest1).map (fun cs => Char.ofNat ((b - 0xC0) * 64 + (c1 - 0x80)) :: cs)
        else none
      | [] => none
    else if 0xE0 ≤ b ∧ b ≤ 0xEF then
      match rest with
      | c1 :: rest1 =>
        if utf8Lo1 b ≤ c1 ∧ c1 ≤ utf8Hi1 b then
          match rest1 with
          | c2 :: rest2 =>
            if utf8Cont c2 then
              (utf8Decode rest2).map
                (fun cs => Char.ofNat ((b - 0xE0) * 4096 + (c1 - 0x80) * 64 + (c2 - 0x80)) :: cs)
            else none
          | [] => none
        else none
      | [] => none
    else if 0xF0 ≤ b ∧ b ≤ 0xF4 then
      match rest with
      | c1 :: rest1 =>
        if utf8Lo1 b ≤ c1 ∧ c1 ≤ utf8Hi1 b then
          match rest1 with
          | c2 :: rest2 =>
            if utf8Cont c2 then
              match rest2 with
              | c3 :: rest3 =>
                if utf8Cont c3 then
                  (utf8Decode rest3).map
                    (fun cs => Char.ofNat ((b - 0xF0) * 262144 + (c1 - 0x80) * 4096 +
                      (c2 - 0x80) * 64 + (c3 - 0x80)) :: cs)
                else none
              | [] => none
            else none
          | [] => none
        else none
      | [] => none
    else none

/-- Characters of `String::from_utf16_lossy` over a list of 16-bit units. -/
def utf16Lossy : List Nat → List Char
  | [] => []
  | [u] => if u < 0xD800 || 0xE000 ≤ u then [Char.ofNat u] else [Char.ofNat 0xFFFD]
  | u :: u2 :: rest2 =>
    if u < 0xD800 || 0xE000 ≤ u then Char.ofNat u :: utf16Lossy (u2 :: rest2)
    else if u ≤ 0xDBFF then
      if 0xDC00 ≤ u2 ∧ u2 ≤ 0xDFFF then
        Char.ofNat (0x10000 + (u - 0xD800) * 1024 + (u2 - 0xDC00)) :: utf16Lossy rest2
      else Char.ofNat 0xFFFD :: utf16Lossy (u2 :: rest2)
    else Char.ofNat 0xFFFD :: utf16Lossy (u2 :: rest2)

/-- Bytes of the lossy decoding of a byte list (`String::from_utf8_lossy` as a string). -/
def lossyBytes (l : List Nat) : RStr := ofChars (utf8Lossy l)

/-- Characters of an `RStr` that holds a (valid UTF-8) Rust string, as `str::chars`. -/
def rchars (b : RStr) : List Char := utf8Lossy b

/-- Decimal digits of a nonnegative integer, as Rust `to_string` on unsigned integers. -/
def natDec (n : Nat) : RStr := (Nat.toDigits 10 n).map Char.toNat

/-- One uppercase hexadecimal digit. -/
def hexDigit (d : Nat) : Nat := if d < 10 then 48 + d else 55 + d

/-- Hexadecimal digits, least significant first, with structural fuel. -/
def hexRevF : Nat → Nat → List Nat
  | _, 0 => []
  | 0, _ => []
  | fuel + 1, n => hexDigit (n % 16) :: hexRevF fuel (n / 16)

/-- Hexadecimal digits of `n`, least significant first (`n` itself is enough fuel). -/
def hexRev (n : Nat) : List Nat := hexRevF n n

/-- Rust `format!` with `{:0wX}`: uppercase hex, zero-padded to width `w`. -/
def natHexPad (w n : Nat) : RStr :=
  let ds := if n = 0 then [48] else (hexRev n).reverse
  List.replicate (w - ds.length) 48 ++ ds

/-- First index of `needle` in `haystack` (byte index), as `str::find` on a string
pattern and as the `find_bytes` helper of the source (`windows(len).position`). -/
def findSub (haystack needle : RStr) : Option Nat :=
  if needle.isPrefixOf haystack then some 0
  else
    match haystack with
    | [] => none
    | _ :: t => (findSub t needle).map (· + 1)

/-- Rust `str::contains` / substring test over the bytes. -/
def containsSub (haystack needle : RStr) : Bool := (findSub haystack needle).isSome

/-- Rust `char::is_whitespace` (the Unicode White_Space property). -/
def rIsWhitespace (c : Char) : Bool :=
  let n := c.toNat
  (9 ≤ n ∧ n ≤ 13) || n = 32 || n = 0x85 || n = 0xA0 || n = 0x1680 ||
  (0x2000 ≤ n ∧ n ≤ 0x200A) || n = 0x2028 || n = 0x2029 || n = 0x202F ||
  n = 0x205F || n = 0x3000

/-- Rust `char::is_control` (the Cc general category). -/
def rIsControl (c : Char) : Bool :=
  c.toNat < 0x20 || (0x7F ≤ c.toNat ∧ c.toNat ≤ 0x9F)

/-- Rust `char::is_ascii_digit`. -/
def rIsAsciiDigit (b : Nat) : Bool := 48 ≤ b ∧ b ≤ 57

/-- Drop characters satisfying `p` from both ends of a character list. -/
def trimWhile (p : Char → Bool) (cs : List Char) : List Char :=
  ((cs.dropWhile p).reverse.dropWhile p).reverse

/-- Rust `str::trim` of a string held as bytes. -/
def rtrim (b : RStr) : RStr := ofChars (trimWhile rIsWhitespace (rchars b))

/-- Rust `str::trim_matches(char::from(0))`. -/
def trimNulBytes (b : RStr) : RStr := ofChars (trimWhile (fun c => c.toNat = 0) (rchars b))

/-- Split a byte list at every byte 10, keeping empty parts. -/
def splitNl : RStr → List RStr
  | [] => [[]]
  | b :: t =>
    if b = 10 then [] :: splitNl t
    else
      match splitNl t with
      | h :: r => (b :: h) :: r
      | [] => [[b]]

/-- Strip one trailing byte 13, as the `\r` handling of Rust `str::lines`. -/
def stripCr (l : RStr) : RStr :=
  match l.reverse with
  | 13 :: r => r.reverse
  | _ => l

/-- Rust `str::lines`: split at newlines, drop a final empty line, strip one `\r`. -/
def rlines (b : RStr) : List RStr :=
  let parts := splitNl b
  let parts := match parts.reverse with
    | [] :: r => r.reverse
    | _ => parts
  parts.map stripCr

/-- Rust `str::split_once` at the first occurrence of byte `sep`. -/
def splitOnceByte (sep : Nat) : RStr → Option (RStr × RStr)
  | [] => none
  | b :: t =>
    if b = sep then some ([], t)
    else (splitOnceByte sep t).map (fun p => (b :: p.1, p.2))

/-- Rust `str::trim_end_matches` with a one-byte pattern: drop all trailing `v` bytes. -/
def dropTrailing (v : Nat) (b : RStr) : RStr := (b.reverse.dropWhile (· = v)).reverse

/-- The metadata map `HashMap<String, String>` of the source. -/
abbrev Meta := List (RStr × RStr)

/-- Map lookup (`HashMap::get`). -/
def mfind : Meta → RStr → Option RStr
  | [], _ => none
  | (k, v) :: t, q => if k = q then some v else mfind t q

/-- Map insertion (`HashMap::insert`): replaces the value in place or appends. -/
def minsert : Meta → RStr → RStr → Meta
  | [], k, v => [(k, v)]
  | (k0, v0) :: t, k, v => if k0 = k then (k0, v) :: t else (k0, v0) :: minsert t k v

/-- Map membership (`HashMap::contains_key`). -/
def mhas (m : Meta) (k : RStr) : Bool := (mfind m k).isSome

instance {α β : Type} [DecidableEq α] [DecidableEq β] : DecidableEq (Except α β) := fun x y =>
  match x, y with
  | .error a, .error b =>
    if h : a = b then .isTrue (by rw [h]) else .isFalse (by intro he; injection he; exact h (by assumption))
  | .ok a, .ok b =>
    if h : a = b then .isTrue (by rw [h]) else .isFalse (by intro he; injection he; exact h (by assumption))
  | .error _, .ok _ => .isFalse (by intro he; exact Except.noConfusion he)
  | .ok _, .error _ => .isFalse (by intro he; exact Except.noConfusion he)

/-- Byte at index `i`; the source indexes only under bounds guards, where Rust
slice indexing cannot abort, so the default value 0 is never observable. -/
def byteAt (data : RStr) (i : Nat) : Nat := data.getD i 0

/-- Rust `u32::from_be_bytes` over four consecutive bytes. -/
def u32be (data : RStr) (i : Nat) : Nat :=
  byteAt data i * 16777216 + byteAt data (i + 1) * 65536 +
  byteAt data (i + 2) * 256 + byteAt data (i + 3)

/-- Rust `u16::from_le_bytes` over two consecutive bytes. -/
def u16le (data : RStr) (i : Nat) : Nat := byteAt data i + byteAt data (i + 1) * 256

/-- Rust `u32::from_le_bytes` over four consecutive bytes. -/
def u32le (data : RStr) (i : Nat) : Nat :=
  byteAt data i + byteAt data (i + 1) * 256 +
  byteAt data (i + 2) * 65536 + byteAt data (i + 3) * 16777216

/-- The contiguous slice `data[a..b]`. -/
def slice (data : RStr) (a b : Nat) : RStr := (data.drop a).take (b - a)

/-- Split a byte list at every occurrence of byte `sep`, keeping empty parts. -/
def splitByte (sep : Nat) : RStr → List RStr
  | [] => [[]]
  | b :: t =>
    if b = sep then [] :: splitByte sep t
    else
      match splitByte sep t with
      | h :: r => (b :: h) :: r
      | [] => [[b]]

/-- Rust `slice::chunks_exact` with structural fuel (the remainder is dropped). -/
def chunksExactF (n : Nat) : Nat → RStr → List RStr
  | 0, _ => []
  | fuel + 1, l => if l.length < n ∨ n = 0 then [] else l.take n :: chunksExactF n fuel (l.drop n)

/-- Rust `slice::chunks_exact` (`n` is never 0 at the call sites of the source). -/
def chunksExact (n : Nat) (l : RStr) : List RStr := chunksExactF n l.length l

/-- 16-bit little-endian units of a byte string (`chunks_exact(2)` + `u16::from_le_bytes`). -/
def u16leList (b : RStr) : List Nat := (chunksExact 2 b).map (fun p => u16le p 0)

/-- First hit of `f` over a list of candidate positions (an early-return scan loop). -/
def firstSome (f : Nat → Option α) : List Nat → Option α
  | [] => none
  | i :: t =>
    match f i with
    | some r => some r
    | none => firstSome f t

/-- Join byte strings with a separator, as `Vec::join`. -/
def joinSep (sep : RStr) : List RStr → RStr
  | [] => []
  | [a] => a
  | a :: t => a ++ sep ++ joinSep sep t

/-- Stable insertion of `x` into a `le`-sorted list (before the first `y` with `le x y`). -/
def insertS (le : α → α → Bool) (x : α) : List α → List α
  | [] => [x]
  | y :: t => if le x y then x :: y :: t else y :: insertS le x t

/-- Stable ascending sort; the observable behaviour of Rust `sort_by_key`. -/
def sortS (le : α → α → Bool) : List α → List α
  | [] => []
  | x :: xs => insertS le x (sortS le xs)

/-- The root-storage entry of the `cfb` crate as the source consumes it: the raw
stream name, the bytes obtained by `open_stream(entry.path())` plus `read_to_end`
(`none` models a failed open; read errors are ignored by the source, so the field
holds whatever was read), and `entry.len()`. -/
structure CfbEntry where
  name : RStr
  content : Option RStr
  size : Nat
deriving DecidableEq

/-- The result of `CompoundFile::open`: the root storage listing
(`read_storage("/")`, `none` models its failure) and the
`\u{0005}SummaryInformation` stream bytes when that stream opens and reads. -/
structure Cfb where
  root : Option (List CfbEntry)
  summary : Option RStr
deriving DecidableEq

/-- A tar entry of the `tar` crate as consumed by the source: `path().to_str()`
(outer error from `path()`, inner `Option` from `to_str`) and `read_to_string`. -/
structure TarEnt where
  path : Except RStr (Option RStr)
  content : Except RStr RStr
deriving DecidableEq

/-- An ar member of the `ar` crate as consumed by the source: its identifier and
the result of piping its bytes through gzip into a tar reader. -/
structure ArEnt where
  identifier : RStr
  tar : Except RStr (List (Except RStr TarEnt))
deriving DecidableEq

/-- The goblin `Object::parse` outcome as matched by the source. -/
inductive GoblinObj where
  | pe
  | other
deriving DecidableEq

/-- A plist value as consumed by the source (only `Value::String` is read). -/
inductive PlistVal where
  | str (s : RStr)
  | other
deriving DecidableEq

/-- `VS_FIXEDFILEINFO` as read through pelite `ver.fixed()`. -/
structure PeliteFixed where
  fMaj : Nat
  fMin : Nat
  fPat : Nat
  fBld : Nat
  pMaj : Nat
  pMin : Nat
  pPat : Nat
  pBld : Nat
  fileFlags : Nat
  fileOS : Nat
  fileType : Nat
deriving DecidableEq

/-- One translation of the version info: its `format!("{:?}", lang)` rendering and
the key/value pairs passed to the `ver.strings` visitor, in callback order. -/
structure PeliteTrans where
  debug : RStr
  strs : List (RStr × RStr)
deriving DecidableEq

/-- The pelite `version_info()` payload as consumed by the source. -/
structure PeliteVer where
  fixed : Option PeliteFixed
  translations : List PeliteTrans
deriving DecidableEq

/-- The pelite `resources()` payload as consumed by the source. -/
structure PeliteRsrc where
  version_info : Except RStr PeliteVer
deriving DecidableEq

/-- A parsed pelite PE image: the numeric header fields the source prints, and the
resources.  Error strings stand for the `format!("{:?}", e)` renderings. -/
structure PeliteImage where
  machine : Nat
  numberOfSections : Nat
  sizeOfOptionalHeader : Nat
  characteristics : Nat
  pointerToSymbolTable : Nat
  numberOfSymbols : Nat
  timeDateStamp : Nat
  entryPoint : Nat
  imageBase : Nat
  sizeOfImage : Nat
  subsystem : Nat
  dllCharacteristics : Nat
  resources : Except RStr PeliteRsrc
deriving DecidableEq

/-- The external collaborators of the source, modelled as oracles: the cfb, ar,
tar, flate2, plist, goblin and pelite crates, and the Unicode character tables of
the Rust standard library.  Error strings stand for `format!`-rendered errors. -/
structure Ctx where
  cfbOpen : RStr → Except RStr Cfb
  arEntries : RStr → List (Except RStr ArEnt)
  plistDict : RStr → Option (List (RStr × PlistVal))
  goblinObject : RStr → Except RStr GoblinObj
  goblinPE : RStr → Except RStr Bool
  pe32 : RStr → Option PeliteImage
  pe64 : RStr → Option PeliteImage
  isAlphabetic : Char → Bool
  isAlphanumeric : Char → Bool
  isNumeric : Char → Bool
  toLower : RStr → RStr
  charUpper : Char → List Char

namespace Rpm

/-- src/rs/rpm.rs: the 4-byte RPM Lead magic `ED AB EE DB`. -/
def RPM_LEAD_MAGIC : RStr := [0xED, 0xAB, 0xEE, 0xDB]

/-- src/rs/rpm.rs: the 4-byte RPM Header magic `8E AD E8 01`. -/
def RPM_HEADER_MAGIC : RStr := [0x8E, 0xAD, 0xE8, 0x01]

/-- src/rs/rpm.rs `is_rpm_file`. -/
def is_rpm_file (data : RStr) : Bool :=
  4 ≤ data.length ∧ data.take 4 = RPM_LEAD_MAGIC

/-- src/rs/rpm.rs `skip_header_structure`: length of a Header structure
(16-byte preamble, 16-byte index entries, store), padded to 8 bytes. -/
def skip_header_structure (data : RStr) (offset : Nat) : Except RStr Nat :=
  if data.length < offset + 16 then .error (S "File too small for Header structure")
  else if ¬ (slice data offset (offset + 4) = RPM_HEADER_MAGIC) then
    .error (S "Invalid RPM Header magic")
  else
    let index_count := u32be data (offset + 8)
    let store_size := u32be data (offset + 12)
    let total_size := 16 + index_count * 16 + store_size
    let padded_size := ((total_size + 7) / 8) * 8
    .ok (offset + padded_size)

/-- src/rs/rpm.rs `read_string`: null-terminated string at `offset`, validated
as UTF-8 (`String::from_utf8(..).ok()`). -/
def read_string (data : RStr) (offset : Nat) : Option RStr :=
  if data.length ≤ offset then none
  else
    let bytes := (data.drop offset).takeWhile (fun b => ¬ b = 0)
    (utf8Decode bytes).map ofChars

/-- The tag-to-key mapping of the `match tag` in src/rs/rpm.rs `parse_header_structure`. -/
def rpmTagKey (tag : Nat) : Option RStr :=
  if tag = 1000 then some (S "ProductName")
  else if tag = 1001 then some (S "ProductVersion")
  else if tag = 1002 then some (S "Release")
  else if tag = 1004 then some (S "Description")
  else if tag = 1011 then some (S "Vendor")
  else if tag = 1014 then some (S "License")
  else if tag = 1016 then some (S "GroupName")
  else if tag = 1020 then some (S "Url")
  else if tag = 1022 then some (S "Architecture")
  else if tag = 1044 then some (S "SourceRpm")
  else none

/-- The entry loop of src/rs/rpm.rs `parse_header_structure`. -/
def parse_entries (data : RStr) (index_start store_start count : Nat) (meta : Meta) : Meta :=
  (List.range count).foldl (fun meta i =>
    let entry_offset := index_start + i * 16
    let tag := u32be data entry_offset
    let off := u32be data (entry_offset + 8)
    let abs_offset := store_start + off
    match rpmTagKey tag with
    | some key =>
      match read_string data abs_offset with
      | some s => minsert meta key s
      | none => meta
    | none => meta) meta

/-- src/rs/rpm.rs `parse_header_structure` on the Immutable Header. -/
def parse_header_structure (data : RStr) (offset : Nat) (meta : Meta) : Except RStr Meta :=
  if data.length < offset + 16 then .error (S "File too small for Immutable Header")
  else if ¬ (slice data offset (offset + 4) = RPM_HEADER_MAGIC) then
    .error (S "Invalid RPM Immutable Header magic")
  else
    let index_count := u32be data (offset + 8)
    let store_size := u32be data (offset + 12)
    let index_start := offset + 16
    let store_start := index_start + index_count * 16
    if data.length < store_start + store_size then
      .error (S "RPM file truncated in Header structure")
    else .ok (parse_entries data index_start store_start index_count meta)

/-- src/rs/rpm.rs `RPMAnalyzer::parse_metadata`: skip the 96-byte Lead and the
Signature Header, then parse the Immutable Header. -/
def parse_metadata (data : RStr) : Except RStr Meta :=
  let meta := minsert [] (S "Format") (S "RPM")
  if data.length < 96 then .error (S "File too small for RPM Lead")
  else
    match skip_header_structure data 96 with
    | .error e => .error e
    | .ok offset => parse_header_structure data offset meta

/-- src/rs/rpm.rs `RPMAnalyzer::get_file_info`. -/
def get_file_info (_data : RStr) : Meta := minsert [] (S "Format") (S "RPM")

end Rpm

namespace Msi

/-- src/rs/msi.rs: the OLE compound-file magic `D0 CF 11 E0 A1 B1 1A E1`. -/
def MSI_SIGNATURE : RStr := [0xD0, 0xCF, 0x11, 0xE0, 0xA1, 0xB1, 0x1A, 0xE1]

/-- src/rs/msi.rs `is_msi_file`. -/
def is_msi_file (data : RStr) : Bool :=
  8 ≤ data.length ∧ data.take 8 = MSI_SIGNATURE

/-- src/rs/msi.rs `decode_char`: one 6-bit code of the MSI stream-name scheme. -/
def decode_char (c : Nat) : Char :=
  if c ≤ 9 then Char.ofNat (48 + c)
  else if c ≤ 35 then Char.ofNat (97 + (c - 10))
  else if c ≤ 61 then Char.ofNat (65 + (c - 36))
  else if c = 62 then Char.ofNat 95
  else if c = 63 then Char.ofNat 46
  else Char.ofNat 32

/-- src/rs/msi.rs `decode_msi_stream_name`: characters in `[0x3800, 0x4840)` carry
two 6-bit codes; names already starting with `!` or `\u{0005}` pass through. -/
def decode_msi_stream_name (name : RStr) : RStr :=
  if [33].isPrefixOf name ∨ [5].isPrefixOf name then name
  else
    ofChars (catLists ((rchars name).map (fun c =>
      let n := c.toNat
      if 0x3800 ≤ n ∧ n < 0x4840 then
        let n := n - 0x3800
        let char1 := n % 64
        let char2 := (n / 64) % 64
        if ¬ char2 = 0 then [decode_char char1, decode_char char2] else [decode_char char1]
      else [c])))

/-- src/rs/msi.rs `read_idx`: a 2- or 3-byte little-endian string-pool index. -/
def read_idx (data : RStr) (offset size : Nat) : Nat :=
  if data.length < offset + size then 0
  else if size = 2 then u16le data offset
  else if size = 3 then byteAt data offset + byteAt data (offset + 1) * 256 + byteAt data (offset + 2) * 65536
  else 0

/-- src/rs/msi.rs `MsiStringPool`. -/
structure MsiStringPool where
  strings : List RStr
  index_size : Nat

/-- src/rs/msi.rs `MsiStringPool::from_streams`: the pool stream holds codepage,
flags (bit 0x8000 selects 3-byte indices) and 4-byte `{refcount, length}` records;
strings are cut from the data stream in pool order, UTF-16LE when codepage 1200,
lossy UTF-8 otherwise. -/
def MsiStringPool.from_streams (pool_data string_data : RStr) : MsiStringPool :=
  if pool_data.length < 4 then ⟨[], 2⟩
  else
    let codepage := u16le pool_data 0
    let flags := u16le pool_data 2
    let index_size := if ¬ flags / 0x8000 % 2 = 0 then 3 else 2
    let n_entries := (pool_data.length - 4) / 4
    let st := (List.range n_entries).foldl (fun (st : List RStr × Nat) i =>
      let offset := 4 + i * 4
      let length := u16le pool_data (offset + 2)
      if length = 0 then (st.1 ++ [[]], st.2)
      else
        let e := st.2 + length
        if e ≤ string_data.length then
          let s_bytes := slice string_data st.2 e
          let s :=
            if codepage = 1200 then ofChars (utf16Lossy (u16leList s_bytes))
            else lossyBytes s_bytes
          (st.1 ++ [s], st.2 + length)
        else (st.1 ++ [[]], st.2 + length)) ([], 0)
    ⟨st.1, index_size⟩

/-- src/rs/msi.rs `MsiStringPool::get`: 1-based, index 0 reserved. -/
def MsiStringPool.get (p : MsiStringPool) (index : Nat) : Option RStr :=
  if index = 0 ∨ p.strings.length < index then none
  else p.strings.get? (index - 1)

/-- src/rs/msi.rs `get_u32` (little-endian, 0 when out of bounds). -/
def get_u32 (buf : RStr) (offset : Nat) : Nat :=
  if buf.length < offset + 4 then 0 else u32le buf offset

/-- src/rs/msi.rs `get_u16` (little-endian, 0 when out of bounds). -/
def get_u16 (buf : RStr) (offset : Nat) : Nat :=
  if buf.length < offset + 2 then 0 else u16le buf offset

/-- The property-id to key mapping of src/rs/msi.rs `extract_ole_properties`. -/
def olePidKey (pid : Nat) : Option RStr :=
  if pid = 2 then some (S "Title")
  else if pid = 3 then some (S "ProductName")
  else if pid = 4 then some (S "Manufacturer")
  else if pid = 5 then some (S "Keywords")
  else if pid = 6 then some (S "Comments")
  else if pid = 9 then some (S "PackageCode")
  else none

/-- The property loop of src/rs/msi.rs `extract_ole_properties`: VT_LPSTR (30) and
VT_LPWSTR (31) values for pids 2..9, with the overwrite rule of the source. -/
def oleLoop (buffer : RStr) (section_offset entry_base : Nat) : Nat → Nat → Meta → Meta
  | 0, _, meta => meta
  | count + 1, i, meta =>
    let entry_offset := entry_base + i * 8
    if buffer.length < entry_offset + 8 then meta
    else
      let pid := get_u32 buffer entry_offset
      let prop_offset := get_u32 buffer (entry_offset + 4)
      let abs := section_offset + prop_offset
      if buffer.length < abs + 4 then oleLoop buffer section_offset entry_base count (i + 1) meta
      else
        let prop_type := get_u16 buffer abs
        match olePidKey pid with
        | none => oleLoop buffer section_offset entry_base count (i + 1) meta
        | some key =>
          let s? :=
            if prop_type = 30 then
              let str_len := get_u32 buffer (abs + 4)
              let str_start := abs + 8
              if str_start + str_len ≤ buffer.length then
                some (trimNulBytes (lossyBytes (slice buffer str_start (str_start + str_len))))
              else none
            else if prop_type = 31 then
              let str_chars := get_u32 buffer (abs + 4)
              let str_start := abs + 8
              if str_start + str_chars * 2 ≤ buffer.length then
                some (ofChars (trimWhile (fun c => c.toNat = 0)
                  (utf16Lossy (u16leList (slice buffer str_start (str_start + str_chars * 2))))))
              else none
            else none
          match s? with
          | none => oleLoop buffer section_offset entry_base count (i + 1) meta
          | some s =>
            if s = [] then oleLoop buffer section_offset entry_base count (i + 1) meta
            else
              let meta :=
                if pid = 2 ∨ pid = 5 ∨ pid = 6 ∨ pid = 9 ∨ ¬ mhas meta key then minsert meta key s
                else meta
              oleLoop buffer section_offset entry_base count (i + 1) meta

/-- src/rs/msi.rs `extract_ole_properties`: the OLE property-set walk of the
`\u{0005}SummaryInformation` stream. -/
def extract_ole_properties (buffer : RStr) (meta : Meta) : Meta :=
  if buffer.length < 48 ∨ ¬ get_u16 buffer 0 = 0xFFFE then meta
  else
    let num_sections := get_u32 buffer 24
    if num_sections = 0 then meta
    else
      let section_offset := get_u32 buffer 44
      if buffer.length < section_offset + 8 then meta
      else
        let section_size := get_u32 buffer section_offset
        let prop_count := get_u32 buffer (section_offset + 4)
        if buffer.length < section_offset + section_size then meta
        else oleLoop buffer section_offset (section_offset + 8) prop_count 0 meta

/-- src/rs/msi.rs: min and max length accepted by the metadata-string validator. -/
def MIN_METADATA_STRING_LEN : Nat := 3

/-- src/rs/msi.rs: max length accepted by the metadata-string validator. -/
def MAX_METADATA_STRING_LEN : Nat := 100

/-- The blacklist of src/rs/msi.rs `is_valid_metadata_string`. -/
def metadataBlacklist : List RStr :=
  [S "Installation Database", S "Installer Database", S "Windows Installer",
   S "Microsoft Corporation", S "MsiExec", S "Property", S "Feature", S "Component",
   S "Directory", S "Registry", S "AdminExecuteSequence", S "InstallExecuteSequence",
   S "ProductCode", S "UpgradeCode", S "TARGETDIR", S "ProgramFilesFolder"]

/-- The per-character filter of src/rs/msi.rs `is_valid_metadata_string`:
alphanumeric, whitespace, or one of `. - _ , ( ) &` and the apostrophe
(codes 46 45 95 44 40 41 38 39). -/
def validMetaChar (ctx : Ctx) (c : Char) : Bool :=
  ctx.isAlphanumeric c || rIsWhitespace c ||
  c.toNat = 46 || c.toNat = 45 || c.toNat = 95 || c.toNat = 44 ||
  c.toNat = 40 || c.toNat = 41 || c.toNat = 38 || c.toNat = 39

/-- src/rs/msi.rs `is_valid_metadata_string`: byte length in `[3, 100]`, at least
one alphabetic character, no blacklist substring, and the filtered character count
must equal the byte length. -/
def is_valid_metadata_string (ctx : Ctx) (s : RStr) : Bool :=
  if s.length < MIN_METADATA_STRING_LEN ∨ MAX_METADATA_STRING_LEN < s.length then false
  else if ¬ (rchars s).any ctx.isAlphabetic then false
  else if metadataBlacklist.any (fun blocked => containsSub s blocked) then false
  else ((rchars s).filter (validMetaChar ctx)).length = s.length

/-- Characters admitted by the GUID scan of src/rs/msi.rs: ASCII hex digits and
the bytes `{ } -` (123, 125, 45). -/
def guidCharOk (c : Char) : Bool :=
  let n := c.toNat
  (48 ≤ n ∧ n ≤ 57) || (97 ≤ n ∧ n ≤ 102) || (65 ≤ n ∧ n ≤ 70) ||
  n = 123 || n = 125 || n = 45

/-- ASCII uppercasing; on strings passing `guidCharOk` (all ASCII) this is exactly
Rust `str::to_uppercase`. -/
def asciiUpper (c : Char) : Char :=
  if 97 ≤ c.toNat ∧ c.toNat ≤ 122 then Char.ofNat (c.toNat - 32) else c

/-- src/rs/msi.rs `regex_like_guid_search`: scan for the 38-byte shape
`{XXXXXXXX-XXXX-XXXX-XXXX-XXXXXXXXXXXX}` and return it uppercased. -/
def regex_like_guid_search (data : RStr) : Option RStr :=
  firstSome (fun i =>
    if byteAt data i = 123 ∧ byteAt data (i + 37) = 125 ∧
       byteAt data (i + 9) = 45 ∧ byteAt data (i + 14) = 45 ∧
       byteAt data (i + 19) = 45 ∧ byteAt data (i + 24) = 45 then
      match utf8Decode (slice data i (i + 38)) with
      | some cs => if cs.all guidCharOk then some (ofChars (cs.map asciiUpper)) else none
      | none => none
    else none)
    (List.range (data.length - 38))

/-- src/rs/msi.rs `extract_guid` (the prefix argument of the source is unused). -/
def extract_guid (data : RStr) : Option RStr := regex_like_guid_search data

/-- Digit-or-dot test of the version scan. -/
def digitOrDot (b : Nat) : Bool := rIsAsciiDigit b || b = 46

/-- The run collected by the inner loop of src/rs/msi.rs `extract_version_pattern`
from position `i`: digits and dots, stopping once 21 characters are pushed
(the source breaks after the push that makes the length exceed 20). -/
def versionRunAt (data : RStr) (i : Nat) : RStr :=
  ((data.drop i).takeWhile digitOrDot).take 21

/-- Numeric value of a decimal digit string. -/
def natOfDigits (p : RStr) : Nat := p.foldl (fun acc b => acc * 10 + (b - 48)) 0

/-- One dot-separated part is acceptable iff nonempty and `parse::<u32>` succeeds
(digits only, value at most 4294967295). -/
def versionPartOk (p : RStr) : Bool :=
  ¬ p = [] ∧ p.all rIsAsciiDigit ∧ natOfDigits p ≤ 4294967295

/-- The candidate list of src/rs/msi.rs `extract_version_pattern`, in scan order:
positions `i < len - 5` starting `digit dot digit`, whose run splits into 2 to 4
acceptable parts. -/
def versionCandidates (data : RStr) : List RStr :=
  (List.range (data.length - 5)).filterMap (fun i =>
    if rIsAsciiDigit (byteAt data i) ∧ byteAt data (i + 1) = 46 ∧
       rIsAsciiDigit (byteAt data (i + 2)) then
      let version := versionRunAt data i
      let parts := splitByte 46 version
      if 2 ≤ parts.length ∧ parts.length ≤ 4 ∧ parts.all versionPartOk then some version
      else none
    else none)

/-- The sort key of src/rs/msi.rs `extract_version_pattern`:
`(number of dots, not starting with "3.")`. -/
def vkey (v : RStr) : Nat × Bool :=
  ((v.filter (fun b => b = 46)).length, ! (S "3.").isPrefixOf v)

/-- Lexicographic order on the sort keys (`false < true` on the Bool, as in Rust). -/
def vle (a b : RStr) : Bool :=
  (vkey a).1 < (vkey b).1 || ((vkey a).1 = (vkey b).1 && (!(vkey a).2 || (vkey b).2))

/-- src/rs/msi.rs `extract_version_pattern`: stable ascending sort by `vkey`, then
`pop` takes the last element. -/
def extract_version_pattern (data : RStr) : Option RStr :=
  (sortS vle (versionCandidates data)).getLast?

/-- The printable-run loop of src/rs/msi.rs `extract_property_value`: accumulate
printable non-backslash bytes; on a terminator, return the run when it is at least
3 bytes and passes the validator, otherwise restart. -/
def propLoop (ctx : Ctx) : RStr → RStr → Bool → Option RStr
  | [], _, _ => none
  | b :: t, found, inStr =>
    if (32 ≤ b ∧ b ≤ 126) ∧ ¬ b = 92 then propLoop ctx t (found ++ [b]) true
    else if inStr ∧ 3 ≤ found.length then
      if is_valid_metadata_string ctx found then some found
      else propLoop ctx t [] false
    else propLoop ctx t [] false

/-- src/rs/msi.rs `extract_property_value`: look at the 200 bytes after the first
occurrence of `property_name` and return the first validated printable run. -/
def extract_property_value (ctx : Ctx) (buf property_name : RStr) : Option RStr :=
  match findSub buf property_name with
  | some pos =>
    let start := pos + property_name.length
    let e := min (start + 200) buf.length
    propLoop ctx (slice buf start e) [] false
  | none => none

/-- First statement of src/rs/msi.rs `extract_msi_properties`: the ProductCode
GUID scan. -/
def msipPcBlock (buf_str : RStr) (meta : Meta) : Meta :=
  match extract_guid buf_str with
  | some product_code => minsert meta (S "ProductCode") product_code
  | none => meta

/-- Second statement of src/rs/msi.rs `extract_msi_properties`: the UpgradeCode
GUID scan (the same first GUID of the buffer). -/
def msipUcBlock (buf_str : RStr) (meta : Meta) : Meta :=
  match extract_guid buf_str with
  | some upgrade_code => minsert meta (S "UpgradeCode") upgrade_code
  | none => meta

/-- Third statement of src/rs/msi.rs `extract_msi_properties`: the version scan
when `ProductVersion` is absent. -/
def msipPvBlock (buf_str : RStr) (meta : Meta) : Meta :=
  if ¬ mhas meta (S "ProductVersion") then
    match extract_version_pattern buf_str with
    | some version => minsert meta (S "ProductVersion") version
    | none => meta
  else meta

/-- Fourth statement of src/rs/msi.rs `extract_msi_properties`: the Manufacturer
run scan when absent. -/
def msipManBlock (ctx : Ctx) (buf : RStr) (meta : Meta) : Meta :=
  if ¬ mhas meta (S "Manufacturer") then
    match extract_property_value ctx buf (S "Manufacturer") with
    | some manufacturer => minsert meta (S "Manufacturer") manufacturer
    | none => meta
  else meta

/-- Fifth statement of src/rs/msi.rs `extract_msi_properties`: the ProductName
run scan when absent. -/
def msipPnBlock (ctx : Ctx) (buf : RStr) (meta : Meta) : Meta :=
  if ¬ mhas meta (S "ProductName") then
    match extract_property_value ctx buf (S "ProductName") with
    | some product_name => minsert meta (S "ProductName") product_name
    | none => meta
  else meta

/-- Final statement of src/rs/msi.rs `extract_msi_properties`: the installer
framework marker chain. -/
def msipFwBlock (buf_str : RStr) (meta : Meta) : Meta :=
  if containsSub buf_str (S "WixToolset") ∨ containsSub buf_str (S "Windows Installer XML") then
    minsert meta (S "InstallerFramework") (S "WiX Toolset")
  else if containsSub buf_str (S "InstallShield") then
    minsert meta (S "InstallerFramework") (S "InstallShield")
  else if containsSub buf_str (S "Advanced Installer") then
    minsert meta (S "InstallerFramework") (S "Advanced Installer")
  else meta

/-- src/rs/msi.rs `extract_msi_properties`: the heuristic fallback scan over the
raw buffer (GUIDs, version pattern, Manufacturer and ProductName runs, installer
framework markers), as the sequence of its six statements. -/
def extract_msi_properties (ctx : Ctx) (buf : RStr) (meta : Meta) : Meta :=
  let buf_str := lossyBytes buf
  msipFwBlock buf_str (msipPnBlock ctx buf (msipManBlock ctx buf
    (msipPvBlock buf_str (msipUcBlock buf_str (msipPcBlock buf_str meta)))))

/-- The `!StringPool` / `!StringData` collection loop of src/rs/msi.rs
`parse_msi_metadata` (reads append across entries; failed opens are skipped). -/
def collectStreams (entries : List CfbEntry) : RStr × RStr :=
  entries.foldl (fun (acc : RStr × RStr) entry =>
    let decoded := decode_msi_stream_name entry.name
    if decoded = S "!StringPool" then
      match entry.content with
      | some c => (acc.1 ++ c, acc.2)
      | none => acc
    else if decoded = S "!StringData" then
      match entry.content with
      | some c => (acc.1, acc.2 ++ c)
      | none => acc
    else acc) ([], [])

/-- The table loop of src/rs/msi.rs `parse_msi_metadata`: Property rows, File
count and size sum, Component and Feature counts, LaunchCondition strings. -/
def tableLoop (pool : MsiStringPool) (entries : List CfbEntry) (meta : Meta) : Meta :=
  entries.foldl (fun meta entry =>
    let idx_size := pool.index_size
    let decoded := decode_msi_stream_name entry.name
    let name := (decoded.dropWhile (fun b => b = 33)).dropWhile (fun b => b = 5)
    if name = S "Property" then
      match entry.content with
      | some prop_data =>
        let row_size := idx_size * 2
        (chunksExact row_size prop_data).foldl (fun meta row =>
          let key_idx := read_idx row 0 idx_size
          let val_idx := read_idx row idx_size idx_size
          match pool.get key_idx, pool.get val_idx with
          | some key, some val =>
            if ¬ key = [] ∧ ¬ val = [] then minsert meta key val else meta
          | _, _ => meta) meta
      | none => meta
    else if name = S "File" then
      let row_size := idx_size * 5 + 8
      let n_rows := entry.size / row_size
      let meta := minsert meta (S "FileCount") (natDec n_rows)
      match entry.content with
      | some file_data =>
        let total_size := (chunksExact row_size file_data).foldl (fun acc row =>
          let size_offset := idx_size * 3
          if size_offset + 4 ≤ row.length then acc + u32le row size_offset else acc) 0
        minsert meta (S "TotalFileSize") (natDec total_size)
      | none => meta
    else if name = S "Component" then
      let row_size := idx_size * 5 + 2
      minsert meta (S "ComponentCount") (natDec (entry.size / row_size))
    else if name = S "Feature" then
      let row_size := idx_size * 5 + 6
      minsert meta (S "FeatureCount") (natDec (entry.size / row_size))
    else if name = S "LaunchCondition" then
      match entry.content with
      | some lc_data =>
        let row_size := idx_size * 2
        let conditions := (chunksExact row_size lc_data).filterMap (fun row =>
          pool.get (read_idx row idx_size idx_size))
        if ¬ conditions = [] then
          minsert meta (S "LaunchConditions") (joinSep (S " | ") conditions)
        else meta
      | none => meta
    else meta) meta

/-- src/rs/msi.rs `extract_summary_info_enhanced`. -/
def extract_summary_info_enhanced (cfb : Cfb) (meta : Meta) : Meta :=
  match cfb.summary with
  | some buffer => extract_ole_properties buffer meta
  | none => meta

/-- src/rs/msi.rs `parse_msi_metadata`: open the compound file (falling back to
heuristics with a `CompoundFileError` marker), build the string pool, walk the
tables, read summary information, and run heuristics for missing name/version. -/
def parse_msi_metadata (ctx : Ctx) (buf : RStr) : Except RStr Meta :=
  let meta := minsert [] (S "Format") (S "MSI")
  match ctx.cfbOpen buf with
  | .error e =>
    let meta := extract_msi_properties ctx buf meta
    .ok (minsert meta (S "CompoundFileError") e)
  | .ok cfb =>
    match cfb.root with
    | none => .ok (extract_msi_properties ctx buf meta)
    | some storage_entries =>
      let pd := collectStreams storage_entries
      let string_pool :=
        if ¬ pd.1 = [] ∧ ¬ pd.2 = [] then some (MsiStringPool.from_streams pd.1 pd.2)
        else none
      let meta :=
        match string_pool with
        | some pool => tableLoop pool storage_entries meta
        | none => meta
      let meta := extract_summary_info_enhanced cfb meta
      let meta :=
        if ¬ mhas meta (S "ProductName") ∨ ¬ mhas meta (S "ProductVersion") then
          extract_msi_properties ctx buf meta
        else meta
      .ok meta

/-- src/rs/msi.rs `MSIAnalyzer::parse_metadata`. -/
def parse_metadata (ctx : Ctx) (buf : RStr) : Except RStr Meta := parse_msi_metadata ctx buf

/-- src/rs/msi.rs `MSIAnalyzer::get_file_info`. -/
def get_file_info (_data : RStr) : Meta := minsert [] (S "Format") (S "MSI")

end Msi

namespace Deb

/-- src/rs/deb.rs `is_deb_file`: the `!<arch>\n` magic plus a `debian-binary`
first ar member. -/
def is_deb_file (ctx : Ctx) (data : RStr) : Bool :=
  if data.length < 8 ∨ ¬ (data.take 8 = S "!<arch>\n") then false
  else
    match ctx.arEntries data with
    | .ok entry :: _ =>
      entry.identifier = S "debian-binary" ∨ entry.identifier = S "debian-binary/   "
    | _ => false

/-- The loop body of src/rs/deb.rs `parse_control_file` for one line. -/
def controlLine (meta : Meta) (line : RStr) : Meta :=
  match splitOnceByte 58 line with
  | some (key, value) =>
    let key := rtrim key
    let value := rtrim value
    if ¬ key = [] ∧ ¬ value = [] then
      let meta := minsert meta key value
      if key = S "Architecture" then minsert meta (S "Architecture") value else meta
    else meta
  | none => meta

/-- src/rs/deb.rs `parse_control_file`: each `Key: Value` line (first colon) with
nonempty trimmed key and value yields one insertion; `Architecture` is reinserted
verbatim as in the source. -/
def parse_control_file (content : RStr) (meta : Meta) : Meta :=
  (rlines content).foldl controlLine meta

/-- The tar walk of src/rs/deb.rs `parse_metadata`: find `control` or `./control`
and parse it; errors of the tar crate propagate with the formatted messages. -/
def tarWalk (meta : Meta) : List (Except RStr TarEnt) → Except RStr Meta
  | [] => .ok meta
  | e :: rest =>
    match e with
    | .error err => .error (S "Failed to read tar entry: " ++ err)
    | .ok te =>
      match te.path with
      | .error err => .error (S "Failed to get tar path: " ++ err)
      | .ok p =>
        if p = some (S "control") ∨ p = some (S "./control") then
          match te.content with
          | .error err => .error (S "Failed to read control file: " ++ err)
          | .ok content => .ok (parse_control_file content meta)
        else tarWalk meta rest

/-- The member name computed by src/rs/deb.rs `parse_metadata` for an ar entry:
UTF-8 validation (invalid bytes yield the empty name) and trailing-slash strip. -/
def entryName (entry : ArEnt) : RStr :=
  let ident := match utf8Decode entry.identifier with
    | some _ => entry.identifier
    | none => []
  dropTrailing 47 ident

/-- The ar walk of src/rs/deb.rs `parse_metadata`: the first member whose name
(UTF-8, trailing slashes stripped) starts with `control.tar` is processed; only
the `.gz` variant is accepted; a missing member is an error. -/
def arWalk (meta : Meta) : List (Except RStr ArEnt) → Except RStr Meta
  | [] => .error (S "control.tar not found in DEB archive")
  | er :: rest =>
    match er with
    | .error e => .error (S "Failed to read ar entry: " ++ e)
    | .ok entry =>
      let name := entryName entry
      if (S "control.tar").isPrefixOf name then
        if (S ".gz").isSuffixOf name then
          match entry.tar with
          | .error e => .error (S "Failed to read tar entries: " ++ e)
          | .ok tarEntries => tarWalk meta tarEntries
        else .error (S "Unsupported control archive compression: " ++ name)
      else arWalk meta rest

/-- src/rs/deb.rs `DEBAnalyzer::parse_metadata`. -/
def parse_metadata (ctx : Ctx) (data : RStr) : Except RStr Meta :=
  let meta := minsert [] (S "Format") (S "DEB")
  arWalk meta (ctx.arEntries data)

/-- src/rs/deb.rs `DEBAnalyzer::get_file_info`. -/
def get_file_info (data : RStr) : Meta :=
  minsert (minsert [] (S "type") (S "DEB (Debian Package)")) (S "size") (natDec data.length)

end Deb

namespace Pe

/-- src/rs/pe.rs `detect_installer_type`, installer-framework marker chain. -/
def installerTypeScan (buf_str : RStr) (meta : Meta) : Meta :=
  if containsSub buf_str (S "Inno Setup") ∨ containsSub buf_str (S "InnoSetupVersion") then
    minsert meta (S "InstallerType") (S "Inno Setup")
  else if containsSub buf_str (S "Nullsoft Install System") ∨
      containsSub buf_str (S "NSIS.Header") then
    minsert meta (S "InstallerType") (S "NSIS (Nullsoft)")
  else if containsSub buf_str (S "Windows Installer") ∨
      containsSub buf_str (S "InstallShield") then
    minsert meta (S "InstallerType") (S "InstallShield")
  else if containsSub buf_str (S "WiX Toolset") ∨
      containsSub buf_str (S "Windows Installer XML") then
    minsert meta (S "InstallerType") (S "WiX Toolset")
  else if containsSub buf_str (S "Wise Installation System") then
    minsert meta (S "InstallerType") (S "Wise Installer")
  else if containsSub buf_str (S "Setup Factory") then
    minsert meta (S "InstallerType") (S "Setup Factory")
  else if containsSub buf_str (S "Smart Install Maker") then
    minsert meta (S "InstallerType") (S "Smart Install Maker")
  else meta

/-- The import table of src/rs/pe.rs `extract_embedded_msi_metadata`:
`(MSI key, PE key)` pairs, in source order. -/
def msi_fields : List (RStr × RStr) :=
  [(S "ProductName", S "ProductName"),
   (S "Manufacturer", S "CompanyName"),
   (S "Manufacturer", S "Publisher"),
   (S "ProductVersion", S "Version")]

/-- src/rs/pe.rs `extract_embedded_msi_metadata`: run the MSI analyzer on the
tail at `msi_offset` and import fields into absent PE slots, storing the raw
value under `<Key>FromEmbeddedMSI` and the suffixed value under `<Key>`. -/
def extract_embedded_msi_metadata (ctx : Ctx) (buf : RStr) (msi_offset : Nat)
    (meta : Meta) : Meta :=
  if buf.length ≤ msi_offset then meta
  else
    let msi_data := buf.drop msi_offset
    match Msi.parse_metadata ctx msi_data with
    | .ok msi_meta =>
      msi_fields.foldl (fun meta kv =>
        match mfind msi_meta kv.1 with
        | some value =>
          if ¬ mhas meta kv.2 then
            minsert (minsert meta (kv.2 ++ S "FromEmbeddedMSI") value)
              kv.2 (value ++ S " (from embedded MSI)")
          else meta
        | none => meta) meta
    | .error _ => meta

/-- Printable-prefix length of the signature candidate: stop at comma, NUL or a
byte outside 32..=126. -/
def sigTextEnd (candidate : RStr) : Nat :=
  (candidate.takeWhile (fun b => ¬ (b = 44 ∨ b = 0 ∨ b < 32 ∨ 126 < b))).length

/-- One pattern attempt of src/rs/pe.rs `extract_signature_info`; `none` means
the loop continues with the next pattern. -/
def signatureTry (ctx : Ctx) (buf : RStr) (meta : Meta) (pattern : RStr) : Option Meta :=
  match findSub buf pattern with
  | some pos =>
    let start := pos + pattern.length
    if buf.length ≤ start then none
    else
      let e := min (start + 100) buf.length
      let candidate := slice buf start e
      let text_end := sigTextEnd candidate
      if 0 < text_end ∧ 3 ≤ text_end then
        match utf8Decode (candidate.take text_end) with
        | some cs =>
          let name := rtrim (ofChars cs)
          if 3 ≤ name.length ∧ name.length < 100 ∧
             (rchars name).any ctx.isAlphabetic ∧
             ((rchars name).filter (fun c =>
               ctx.isAlphanumeric c || rIsWhitespace c ||
               c.toNat = 46 || c.toNat = 45 || c.toNat = 44 || c.toNat = 38)).length
               = name.length then
            let meta := minsert meta (S "SignedBy") name
            if ¬ mhas meta (S "CompanyName") then
              some (minsert (minsert meta (S "CompanyName") name) (S "Publisher") name)
            else some meta
          else none
        | none => none
      else none
  | none => none

/-- src/rs/pe.rs `extract_signature_info`: try `O=` then `CN=`; the first hit that
validates inserts `SignedBy` (and `CompanyName`/`Publisher` when absent). -/
def extract_signature_info (ctx : Ctx) (buf : RStr) (meta : Meta) : Meta :=
  match signatureTry ctx buf meta (S "O=") with
  | some meta2 => meta2
  | none =>
    match signatureTry ctx buf meta (S "CN=") with
    | some meta2 => meta2
    | none => meta

/-- src/rs/pe.rs `detect_installer_type`: installer markers, embedded-MSI scan
for the OLE magic, then signature scan. -/
def detect_installer_type (ctx : Ctx) (buf : RStr) (meta : Meta) : Meta :=
  let buf_str := lossyBytes buf
  let meta := installerTypeScan buf_str meta
  let meta :=
    match findSub buf [0xD0, 0xCF, 0x11, 0xE0, 0xA1, 0xB1, 0x1A, 0xE1] with
    | some pos =>
      let meta := minsert meta (S "EmbeddedMSI") (S "true")
      let meta := minsert meta (S "MSIOffset") (natDec pos)
      extract_embedded_msi_metadata ctx buf pos meta
    | none => meta
  extract_signature_info ctx buf meta

/-- One visitor callback of the `ver.strings` loop in src/rs/pe.rs: bump the
count, record the `Debug_i_key` entry, and accumulate nonempty values into
`all_strings`. -/
def transStrsStep (idx : Nat) (st2 : Nat × Meta × Meta) (kv : RStr × RStr) : Nat × Meta × Meta :=
  let count := st2.1 + 1
  let meta := minsert st2.2.1 (S "Debug_" ++ (natDec idx ++ (S "_" ++ kv.1))) kv.2
  let alls := if ¬ kv.2 = [] then minsert st2.2.2 kv.1 kv.2 else st2.2.2
  (count, meta, alls)

/-- One translation iteration of src/rs/pe.rs `extract_pe64_metadata` /
`extract_pe32_metadata`: `Translation_i`, the visitor fold, and
`StringsInTranslation_i`. -/
def transStep (st : Meta × Meta × List Nat) (p : Nat × PeliteTrans) : Meta × Meta × List Nat :=
  let idx := p.1
  let lang := p.2
  let meta := minsert st.1 (S "Translation_" ++ natDec idx) lang.debug
  let res := lang.strs.foldl (transStrsStep idx) (0, meta, st.2.1)
  let meta := minsert res.2.1 (S "StringsInTranslation_" ++ natDec idx) (natDec res.1)
  (meta, res.2.2, st.2.2 ++ [res.1])

/-- The translations loop of src/rs/pe.rs `extract_pe64_metadata` /
`extract_pe32_metadata`: per-translation entries, the accumulated `all_strings`
map (nonempty values only; Rust iterates a `HashMap` in unspecified order,
modelled here as insertion order) and the per-translation callback counts. -/
def transLoop (translations : List PeliteTrans) (meta : Meta) : Meta × Meta × List Nat :=
  (translations.enum).foldl transStep (meta, [], [])

/-- The fixed-version block of the version-info handling in src/rs/pe.rs. -/
def viFixedBlock (fixed? : Option PeliteFixed) (meta : Meta) : Meta :=
  match fixed? with
  | some fixed =>
    let file_version := natDec fixed.fMaj ++ S "." ++ natDec fixed.fMin ++ S "." ++
      natDec fixed.fPat ++ S "." ++ natDec fixed.fBld
    let meta := minsert meta (S "FileVersionNumber") file_version
    let product_version := natDec fixed.pMaj ++ S "." ++ natDec fixed.pMin ++ S "." ++
      natDec fixed.pPat ++ S "." ++ natDec fixed.pBld
    let meta := minsert meta (S "ProductVersionNumber") product_version
    let meta := minsert meta (S "FileFlags") (S "0x" ++ natHexPad 8 fixed.fileFlags)
    let meta := minsert meta (S "FileOS") (S "0x" ++ natHexPad 8 fixed.fileOS)
    minsert meta (S "FileType") (S "0x" ++ natHexPad 8 fixed.fileType)
  | none => meta

/-- The nonempty `all_strings` branch of src/rs/pe.rs: flatten every string to a
top-level key with the ProgramName/Vendor/Publisher/Version aliases. -/
def viAliasFold (all_strings : Meta) (meta : Meta) : Meta :=
  all_strings.foldl (fun meta kv =>
    let meta := minsert meta kv.1 kv.2
    if kv.1 = S "FileDescription" then minsert meta (S "ProgramName") kv.2
    else if kv.1 = S "CompanyName" then
      minsert (minsert meta (S "Vendor") kv.2) (S "Publisher") kv.2
    else if kv.1 = S "ProductVersion" then minsert meta (S "Version") kv.2
    else meta) meta

/-- The empty `all_strings` branch of src/rs/pe.rs: `NoStringsFound`, and the
" (from digital signature)" suffixing of CompanyName/Publisher/Vendor when
`SignedBy` is present. -/
def viNoStringsBlock (meta : Meta) : Meta :=
  let meta := minsert meta (S "NoStringsFound") (S "true")
  match mfind meta (S "CompanyName") with
  | some company =>
    if mhas meta (S "SignedBy") ∧ ¬ containsSub company (S "from digital signature") then
      let meta := minsert meta (S "CompanyName") (company ++ S " (from digital signature)")
      let meta :=
        match mfind meta (S "Publisher") with
        | some publisher =>
          minsert meta (S "Publisher") (publisher ++ S " (from digital signature)")
        | none => meta
      match mfind meta (S "Vendor") with
      | some vendor => minsert meta (S "Vendor") (vendor ++ S " (from digital signature)")
      | none => meta
    else meta
  | none => meta

/-- The version-info handling shared verbatim by `extract_pe64_metadata` and
`extract_pe32_metadata` in src/rs/pe.rs: fixed version block, translations, then
either the string-table flattening or the `NoStringsFound` branch. -/
def versionInfoExtract (ver : PeliteVer) (meta : Meta) : Meta :=
  let meta := minsert meta (S "HasVersionInfo") (S "true")
  let meta := viFixedBlock ver.fixed meta
  let meta := minsert meta (S "TranslationCount") (natDec ver.translations.length)
  let res := transLoop ver.translations meta
  let meta := res.1
  let all_strings := res.2.1
  let strings_per_lang := res.2.2
  let meta := minsert meta (S "TotalCallbackCalls") (natDec (strings_per_lang.foldl (· + ·) 0))
  let meta := minsert meta (S "StringsCount") (natDec all_strings.length)
  if ¬ all_strings = [] then viAliasFold all_strings meta
  else viNoStringsBlock meta

/-- The body shared by src/rs/pe.rs `extract_pe64_metadata` and
`extract_pe32_metadata` (their source texts differ only in the pelite parser used
and in the `ImageBase` hex width: 8 for PE32, 16 for PE64). -/
def peImageExtract (image : PeliteImage) (imageBaseWidth : Nat) (meta : Meta) : Meta :=
  let meta := minsert meta (S "Machine") (S "0x" ++ natHexPad 4 image.machine)
  let meta := minsert meta (S "NumberOfSections") (natDec image.numberOfSections)
  let meta := minsert meta (S "SizeOfOptionalHeader") (natDec image.sizeOfOptionalHeader)
  let meta := minsert meta (S "Characteristics") (S "0x" ++ natHexPad 4 image.characteristics)
  let meta := minsert meta (S "PointerToSymbolTable") (natDec image.pointerToSymbolTable)
  let meta := minsert meta (S "NumberOfSymbols") (natDec image.numberOfSymbols)
  let meta :=
    if 0 < image.timeDateStamp then minsert meta (S "Timestamp") (natDec image.timeDateStamp)
    else meta
  let meta := minsert meta (S "EntryPoint") (S "0x" ++ natHexPad 8 image.entryPoint)
  let meta := minsert meta (S "ImageBase") (S "0x" ++ natHexPad imageBaseWidth image.imageBase)
  let meta := minsert meta (S "SizeOfImage") (natDec image.sizeOfImage)
  let meta := minsert meta (S "Subsystem") (natDec image.subsystem)
  let meta := minsert meta (S "DllCharacteristics") (S "0x" ++ natHexPad 4 image.dllCharacteristics)
  match image.resources with
  | .ok rsrc =>
    let meta := minsert meta (S "HasResources") (S "true")
    match rsrc.version_info with
    | .ok ver => versionInfoExtract ver meta
    | .error e => minsert meta (S "VersionInfoError") e
  | .error e => minsert meta (S "ResourcesError") e

/-- src/rs/pe.rs `extract_pe64_metadata` (a failed pelite parse inserts nothing). -/
def extract_pe64_metadata (ctx : Ctx) (buf : RStr) (meta : Meta) : Meta :=
  match ctx.pe64 buf with
  | some image => peImageExtract image 16 meta
  | none => meta

/-- src/rs/pe.rs `extract_pe32_metadata` (a failed pelite parse inserts nothing). -/
def extract_pe32_metadata (ctx : Ctx) (buf : RStr) (meta : Meta) : Meta :=
  match ctx.pe32 buf with
  | some image => peImageExtract image 8 meta
  | none => meta

/-- src/rs/pe.rs `parse_pe_metadata` given the goblin `pe.is_64` flag. -/
def parse_pe_metadata (ctx : Ctx) (buf : RStr) (is64 : Bool) : Except RStr Meta :=
  let meta := minsert [] (S "Format") (S "PE")
  let meta := detect_installer_type ctx buf meta
  let meta :=
    if is64 then extract_pe64_metadata ctx buf (minsert meta (S "Architecture") (S "x64"))
    else extract_pe32_metadata ctx buf (minsert meta (S "Architecture") (S "x86"))
  .ok meta

/-- src/rs/pe.rs `PEAnalyzer::parse_metadata`. -/
def parse_metadata (ctx : Ctx) (data : RStr) : Except RStr Meta :=
  match ctx.goblinPE data with
  | .error e => .error (S "Failed to parse PE file: " ++ e)
  | .ok is64 => parse_pe_metadata ctx data is64

/-- src/rs/pe.rs `PEAnalyzer::get_file_info`. -/
def get_file_info (data : RStr) : Meta :=
  minsert (minsert [] (S "type") (S "PE (Windows Executable)")) (S "size") (natDec data.length)

end Pe

/-- Rust `str::is_char_boundary`. -/
def isCharBoundary (b : RStr) (i : Nat) : Bool :=
  if i = b.length then true
  else if b.length < i then false
  else ¬ (0x80 ≤ byteAt b i ∧ byteAt b i ≤ 0xBF)

/-- Rust `&s[a..e]` on a `&str`: `none` models the abort (index out of range or
not on a char boundary). -/
def strSliceQ (b : RStr) (a e : Nat) : Option RStr :=
  if a ≤ e ∧ isCharBoundary b a ∧ isCharBoundary b e then some (slice b a e) else none

/-- Byte position of the first character satisfying `p` (Rust `str::find` with a
char predicate or char-array pattern). -/
def findCharPos (p : Char → Bool) : List Char → Nat → Option Nat
  | [], _ => none
  | c :: t, acc => if p c then some acc else findCharPos p t (acc + (encodeChar c).length)

/-- Byte index of the last occurrence of byte `v` (Rust `str::rfind` with an
ASCII char pattern). -/
def rfindByte (v : Nat) (b : RStr) : Option Nat :=
  match findSub b.reverse [v] with
  | some p => some (b.length - 1 - p)
  | none => none

/-- Non-overlapping occurrence positions, with structural fuel. -/
def findAllF (n : RStr) : Nat → RStr → Nat → List Nat
  | 0, _, _ => []
  | fuel + 1, h, base =>
    match findSub h n with
    | some p => (base + p) :: findAllF n fuel (h.drop (p + n.length)) (base + p + n.length)
    | none => []

/-- Rust `str::match_indices` positions (non-overlapping, left to right). -/
def findAllSub (h n : RStr) : List Nat := findAllF n h.length h 0

/-- Whitespace-separated groups of a character list (Rust `str::split_whitespace`). -/
def splitWsCharsAux : List Char → List Char → List (List Char)
  | [], cur => if cur = [] then [] else [cur.reverse]
  | c :: t, cur =>
    if rIsWhitespace c then
      if cur = [] then splitWsCharsAux t []
      else cur.reverse :: splitWsCharsAux t []
    else splitWsCharsAux t (c :: cur)

/-- Rust `str::split_whitespace` over a character list. -/
def splitWsChars (cs : List Char) : List (List Char) := splitWsCharsAux cs []

namespace Dmg

/-- src/rs/dmg.rs `is_dmg_file`: size at least 512 and the `koly` trailer; the
compression-prefix branch re-checks the same trailer. -/
def is_dmg_file (data : RStr) : Bool :=
  if data.length < 512 then false
  else
    let end_offset := data.length - 512
    if slice data end_offset (end_offset + 4) = S "koly" then true
    else
      if 4 ≤ data.length ∧
         (slice data 0 4 = [0x78, 0x01, 0x73, 0x0D] ∨
          slice data 0 4 = [0x78, 0x9C, 0xEC, 0xBD] ∨
          slice data 0 4 = [0x78, 0x9C, 0x00, 0x00] ∨
          slice data 0 2 = [0x78, 0x01] ∨
          slice data 0 2 = [0x78, 0x5E] ∨
          slice data 0 2 = [0x78, 0x9C] ∨
          slice data 0 2 = [0x78, 0xDA] ∨
          slice data 0 2 = [0x1F, 0x8B] ∨
          slice data 0 4 = [0x42, 0x5A, 0x68, 0x39] ∨
          slice data 0 4 = [0x42, 0x5A, 0x68, 0x31]) then
        if 512 ≤ data.length ∧ slice data end_offset (end_offset + 4) = S "koly" then true
        else false
      else false

/-- One marker attempt of src/rs/dmg.rs `find_plist_in_region`: slice through the
closing `</plist>` (+8) and accept only if a CFBundle key is mentioned. -/
def regionTryMarker (data marker : RStr) : Option RStr :=
  match findSub data marker with
  | some pos =>
    match findSub (data.drop pos) (S "</plist>") with
    | some end_pos =>
      let plist_data := slice data pos (pos + end_pos + 8)
      let plist_str := lossyBytes plist_data
      if containsSub plist_str (S "CFBundleName") ∨
         containsSub plist_str (S "CFBundleIdentifier") ∨
         containsSub plist_str (S "CFBundleVersion") then some plist_data
      else none
    | none => none
  | none => none

/-- src/rs/dmg.rs `find_plist_in_region`: the three XML markers in order, then a
`bplist` slice of up to 50000 bytes. -/
def find_plist_in_region (data : RStr) : Option RStr :=
  match regionTryMarker data (S "<?xml version=\"1.0\"") with
  | some pd => some pd
  | none =>
    match regionTryMarker data (S "<plist version=") with
    | some pd => some pd
    | none =>
      match regionTryMarker data (S "<!DOCTYPE plist") with
      | some pd => some pd
      | none =>
        match findSub data (S "bplist") with
        | some pos => some (slice data pos (min (pos + 50000) data.length))
        | none => none

/-- src/rs/dmg.rs `find_plist_in_dmg`.  The window indices come from a find on
the lossy string but slice the raw buffer, as in the source; the outer `none`
models the abort when the window start exceeds its end (possible only when the
lossy string is longer than the buffer). -/
def find_plist_in_dmg (data : RStr) : Option (Option RStr) :=
  let data_str := lossyBytes data
  match findSub data_str (S "Contents/Info.plist") with
  | some info_plist_pos =>
    let search_start := info_plist_pos - 100000
    let search_end := min (info_plist_pos + 100000) data.length
    if search_end < search_start then none
    else
      let search_region := slice data search_start search_end
      match find_plist_in_region search_region with
      | some pd => some (some pd)
      | none => some (find_plist_in_region data)
  | none => some (find_plist_in_region data)

/-- src/rs/dmg.rs `capitalize_first` (`char::to_uppercase` via the context). -/
def capitalize_first (ctx : Ctx) (s : RStr) : RStr :=
  match rchars s with
  | [] => []
  | first :: rest => ofChars (ctx.charUpper first ++ rest)

/-- The `ApplicationCategory` cleaning of src/rs/dmg.rs: last dot segment,
dashes to spaces, each whitespace word capitalized and joined with spaces. -/
def cleanCategory (ctx : Ctx) (value : RStr) : RStr :=
  let lastSeg := (splitByte 46 value).getLast?.getD value
  let replaced := lastSeg.map (fun b => if b = 45 then 32 else b)
  joinSep (S " ") ((splitWsChars (rchars replaced)).map (fun w => capitalize_first ctx (ofChars w)))

/-- The key table of src/rs/dmg.rs `parse_plist_properly`. -/
def keys_to_extract : List (RStr × RStr) :=
  [(S "CFBundleName", S "ProductName"),
   (S "CFBundleDisplayName", S "DisplayName"),
   (S "CFBundleExecutable", S "ExecutableName"),
   (S "CFBundleIdentifier", S "BundleIdentifier"),
   (S "CFBundleShortVersionString", S "ProductVersion"),
   (S "CFBundleVersion", S "FileVersion"),
   (S "NSHumanReadableCopyright", S "LegalCopyright"),
   (S "CFBundleGetInfoString", S "FileDescription"),
   (S "LSApplicationCategoryType", S "ApplicationCategory"),
   (S "CFBundlePackageType", S "PackageType"),
   (S "NSPrincipalClass", S "PrincipalClass"),
   (S "CFBundleIconFile", S "IconFile"),
   (S "LSMinimumSystemVersion", S "MinimumSystemVersion")]

/-- Lookup in a plist dictionary (the `plist::Dictionary::get` of the source). -/
def dictGet : List (RStr × PlistVal) → RStr → Option PlistVal
  | [], _ => none
  | (k, v) :: t, q => if k = q then some v else dictGet t q

/-- The per-key body of the extraction loop in src/rs/dmg.rs
`parse_plist_properly`. -/
def pppStep (ctx : Ctx) (dict : List (RStr × PlistVal)) (meta : Meta) (p : RStr × RStr) :
    Meta :=
  match dictGet dict p.1 with
  | some (PlistVal.str s) =>
    let value := rtrim s
    if ¬ value = [] then
      if p.2 = S "ApplicationCategory" then minsert meta p.2 (cleanCategory ctx value)
      else minsert meta p.2 value
    else meta
  | _ => meta

/-- The ProductName/FileVersion/CompanyName synthesis tail of src/rs/dmg.rs
`parse_plist_properly`. -/
def pppSynth (ctx : Ctx) (meta : Meta) : Meta :=
  let meta :=
    if ¬ mhas meta (S "ProductName") ∧ mhas meta (S "DisplayName") then
      match mfind meta (S "DisplayName") with
      | some d => minsert meta (S "ProductName") d
      | none => meta
    else meta
  let meta :=
    if mhas meta (S "ProductVersion") ∧ ¬ mhas meta (S "FileVersion") then
      match mfind meta (S "ProductVersion") with
      | some v => minsert meta (S "FileVersion") v
      | none => meta
    else meta
  if ¬ mhas meta (S "CompanyName") then
    match mfind meta (S "BundleIdentifier") with
    | some bundle_id =>
      let parts := splitByte 46 bundle_id
      if 2 ≤ parts.length then
        let company := (parts.get? 1).getD []
        if ¬ company = [] ∧ (rchars company).all ctx.isAlphanumeric then
          minsert meta (S "CompanyName") (capitalize_first ctx company)
        else meta
      else meta
    | none => meta
  else meta

/-- src/rs/dmg.rs `parse_plist_properly`: extract the key table from the parsed
dictionary, then the ProductName/FileVersion/CompanyName synthesis rules. -/
def parse_plist_properly (ctx : Ctx) (plist_data : RStr) (meta : Meta) : Meta :=
  match ctx.plistDict plist_data with
  | some dict => pppSynth ctx (keys_to_extract.foldl (pppStep ctx dict) meta)
  | none => meta

/-- The three-find shape shared by all key blocks of src/rs/dmg.rs
`extract_plist_info` / `extract_bundle_info`: find the key pattern, then
`<string>` after it, then `</string>` after that; the value lies between. -/
def plistKeyBlock (data_str keyPat : RStr) : Option RStr :=
  match findSub data_str keyPat with
  | some start =>
    match findSub (data_str.drop start) (S "<string>") with
    | some value_start =>
      match findSub (data_str.drop (start + value_start)) (S "</string>") with
      | some value_end =>
        some (slice data_str (start + value_start + 8) (start + value_start + value_end))
      | none => none
    | none => none
  | none => none

/-- The `CFBundleName` statement of src/rs/dmg.rs `extract_plist_info`. -/
def epiNameBlock (data_str : RStr) (meta : Meta) : Meta :=
  match plistKeyBlock data_str (S "<key>CFBundleName</key>") with
  | some name =>
    if ¬ name = [] ∧ name.length < 100 then minsert meta (S "ProductName") (rtrim name)
    else meta
  | none => meta

/-- The `CFBundleDisplayName` statement of src/rs/dmg.rs `extract_plist_info`. -/
def epiDisplayBlock (data_str : RStr) (meta : Meta) : Meta :=
  match plistKeyBlock data_str (S "<key>CFBundleDisplayName</key>") with
  | some name =>
    if ¬ name = [] ∧ name.length < 100 then
      let meta :=
        if ¬ mhas meta (S "ProductName") then minsert meta (S "ProductName") (rtrim name)
        else meta
      minsert meta (S "DisplayName") (rtrim name)
    else meta
  | none => meta

/-- The `CFBundleShortVersionString` statement of src/rs/dmg.rs
`extract_plist_info`. -/
def epiShortVerBlock (data_str : RStr) (meta : Meta) : Meta :=
  match plistKeyBlock data_str (S "<key>CFBundleShortVersionString</key>") with
  | some version =>
    if ¬ version = [] ∧ version.length < 50 then
      minsert (minsert meta (S "ProductVersion") (rtrim version)) (S "FileVersion") (rtrim version)
    else meta
  | none => meta

/-- The `CFBundleVersion` statement of src/rs/dmg.rs `extract_plist_info`. -/
def epiBundleVerBlock (data_str : RStr) (meta : Meta) : Meta :=
  if ¬ mhas meta (S "ProductVersion") then
    match plistKeyBlock data_str (S "<key>CFBundleVersion</key>") with
    | some version =>
      if ¬ version = [] ∧ version.length < 50 then
        minsert (minsert (minsert meta (S "ProductVersion") (rtrim version))
          (S "FileVersion") (rtrim version)) (S "FileVersionNumber") (rtrim version)
      else meta
    | none => meta
  else meta

/-- The `NSHumanReadableCopyright` statement of src/rs/dmg.rs
`extract_plist_info`. -/
def epiCopyrightBlock (data_str : RStr) (meta : Meta) : Meta :=
  match plistKeyBlock data_str (S "<key>NSHumanReadableCopyright</key>") with
  | some copyright =>
    if ¬ copyright = [] ∧ copyright.length < 200 then
      minsert meta (S "LegalCopyright") (rtrim copyright)
    else meta
  | none => meta

/-- The `CFBundleGetInfoString` statement of src/rs/dmg.rs `extract_plist_info`. -/
def epiInfoBlock (data_str : RStr) (meta : Meta) : Meta :=
  match plistKeyBlock data_str (S "<key>CFBundleGetInfoString</key>") with
  | some info =>
    if ¬ info = [] ∧ info.length < 200 then minsert meta (S "FileDescription") (rtrim info)
    else meta
  | none => meta

/-- The `LSApplicationCategoryType` statement of src/rs/dmg.rs
`extract_plist_info`. -/
def epiCategoryBlock (ctx : Ctx) (data_str : RStr) (meta : Meta) : Meta :=
  match plistKeyBlock data_str (S "<key>LSApplicationCategoryType</key>") with
  | some category =>
    if ¬ category = [] ∧ category.length < 100 then
      minsert meta (S "ApplicationCategory") (cleanCategory ctx (rtrim category))
    else meta
  | none => meta

/-- The `NSPrincipalClass` statement of src/rs/dmg.rs `extract_plist_info`. -/
def epiPrincipalBlock (data_str : RStr) (meta : Meta) : Meta :=
  match plistKeyBlock data_str (S "<key>NSPrincipalClass</key>") with
  | some principal_class =>
    if ¬ principal_class = [] ∧ principal_class.length < 100 then
      minsert meta (S "PrincipalClass") (rtrim principal_class)
    else meta
  | none => meta

/-- src/rs/dmg.rs `extract_plist_info`: the direct XML key scans with their
length bounds and insertion rules, in source order. -/
def extract_plist_info (ctx : Ctx) (data_str : RStr) (meta : Meta) : Meta :=
  epiPrincipalBlock data_str (epiCategoryBlock ctx data_str (epiInfoBlock data_str
    (epiCopyrightBlock data_str (epiBundleVerBlock data_str (epiShortVerBlock data_str
      (epiDisplayBlock data_str (epiNameBlock data_str meta)))))))

/-- src/rs/dmg.rs `extract_version_strings`: dotted digits after a `Version `
literal, when `ProductVersion` is still absent. -/
def extract_version_strings (ctx : Ctx) (data_str : RStr) (meta : Meta) : Meta :=
  if ¬ mhas meta (S "ProductVersion") then
    match findSub data_str (S "Version ") with
    | some pos =>
      let after_version := data_str.drop (pos + 8)
      match findCharPos (fun c => ¬ ctx.isNumeric c ∧ ¬ c.toNat = 46) (rchars after_version) 0 with
      | some e =>
        let version_str := after_version.take e
        if ¬ version_str = [] ∧
           (rchars version_str).all (fun c => ctx.isNumeric c || c.toNat = 46) ∧
           containsSub version_str [46] then
          minsert (minsert meta (S "ProductVersion") version_str) (S "FileVersion") version_str
        else meta
      | none => meta
    | none => meta
  else meta

/-- src/rs/dmg.rs `extract_bundle_info`: `CFBundleIdentifier` scan plus the
CompanyName/Manufacturer synthesis from the second dot segment. -/
def extract_bundle_info (ctx : Ctx) (data_str : RStr) (meta : Meta) : Meta :=
  match plistKeyBlock data_str (S "<key>CFBundleIdentifier</key>") with
  | some bundle_id =>
    if ¬ bundle_id = [] ∧ bundle_id.length < 200 then
      let meta := minsert meta (S "BundleIdentifier") (rtrim bundle_id)
      if ¬ mhas meta (S "CompanyName") then
        let parts := splitByte 46 bundle_id
        if 2 ≤ parts.length then
          let company := (parts.get? 1).getD []
          if ¬ company = [] ∧ (rchars company).all ctx.isAlphanumeric then
            let company_name := capitalize_first ctx company
            minsert (minsert meta (S "CompanyName") company_name) (S "Manufacturer") company_name
          else meta
        else meta
      else meta
    else meta
  | none => meta

/-- The company patterns of src/rs/dmg.rs `extract_developer_info`, in order. -/
def devPatterns : List RStr :=
  [S "Copyright", S "Inc.", S "Corporation", S "Corp.", S "LLC", S "Ltd.", S "Limited"]

/-- src/rs/dmg.rs `extract_developer_info`.  Every found pattern slices a
±100-byte context out of the lossy string — `none` models the abort when a slice
index is not a char boundary.  Only the `Copyright` pattern inserts anything.
The source text holds a mojibake two-code-point char literal for the copyright
sign; it is modelled as U+00A9. -/
def devStep (ctx : Ctx) (data_str : RStr) (st : Option Meta) (pattern : RStr) :
    Option Meta :=
  match st with
  | none => none
  | some meta =>
    match findSub data_str pattern with
    | some pos =>
      let start := pos - 100
      let e := min (pos + 100) data_str.length
      match strSliceQ data_str start e with
      | none => none
      | some context =>
        if pattern = S "Copyright" then
          match findSub context (S "Copyright") with
          | some copy_pos =>
            let after_copyright := context.drop (copy_pos + 9)
            let cleaned := ofChars ((rchars after_copyright).dropWhile (fun c =>
              ctx.isNumeric c || c.toNat = 0xA9 || c.toNat = 40 || c.toNat = 41 ||
              c.toNat = 45 || rIsWhitespace c))
            match findCharPos (fun c => c.toNat = 10 ∨ c.toNat = 0 ∨ c.toNat = 46)
                (rchars cleaned) 0 with
            | some company_end =>
              let company := cleaned.take company_end
              if 2 < company.length ∧ company.length < 100 ∧ ¬ mhas meta (S "CompanyName") then
                some (minsert (minsert meta (S "CompanyName") (rtrim company))
                  (S "Publisher") (rtrim company))
              else some meta
            | none => some meta
          | none => some meta
        else some meta
    | none => some meta

/-- See `devStep`: the fold over the pattern table. -/
def extract_developer_info (ctx : Ctx) (data_str : RStr) (meta : Meta) : Option Meta :=
  devPatterns.foldl (devStep ctx data_str) (some meta)

/-- The skip list of the `.app` scan in src/rs/dmg.rs `extract_app_names`. -/
def skipNames : List RStr :=
  [S "www", S "html", S "com", S "http", S "https", S "ftp", S "temp", S "tmp",
   S "test", S "example", S "demo", S "data", S "cache", S "lib", S "bin", S "usr",
   S "var", S "resources", S "frameworks", S "macos", S "contents", S "applications"]

/-- The skip patterns of the printable sweep in src/rs/dmg.rs `extract_app_names`. -/
def skipPatterns : List RStr :=
  [S "http", S "www", S "https", S "ftp", S "com.", S "org.", S ".app", S "plist", S "xml"]

/-- The `.app` occurrence loop of src/rs/dmg.rs `extract_app_names`: take the 100
bytes before the match, the path segment after the last slash, and accept it by
the name rules; the first acceptance breaks.  `none` models the context-slice
abort. -/
def appNameVisit (ctx : Ctx) (data_str : RStr) (meta : Meta) (pos : Nat) :
    Option (Option Meta) :=
  let start := pos - 100
  match strSliceQ data_str start pos with
  | none => none
  | some before =>
    match rfindByte 47 before with
    | some last_slash =>
      let app_name := before.drop (last_slash + 1)
      let app_name_lower := ctx.toLower app_name
      if 2 < app_name.length ∧ app_name.length < 100 ∧
         (rchars app_name).any ctx.isAlphabetic ∧
         3 ≤ ((rchars app_name).filter ctx.isAlphabetic).length ∧
         (rchars app_name).all (fun c =>
           ctx.isAlphanumeric c || rIsWhitespace c || c.toNat = 45 || c.toNat = 95) ∧
         ¬ skipNames.contains app_name_lower ∧
         ¬ (S "com.").isPrefixOf app_name_lower ∧
         ¬ (S "org.").isPrefixOf app_name_lower then
        some (some (minsert (minsert meta (S "ProductName") (rtrim app_name))
          (S "ApplicationBundle") (rtrim app_name ++ S ".app")))
      else some none
    | none => some none

/-- See `appNameVisit`: the loop over the `.app` match positions; `none` aborts,
`some (some m)` accepts and breaks, `some none` moves to the next position. -/
def appNameLoop (ctx : Ctx) (data_str : RStr) (meta : Meta) : List Nat → Option Meta
  | [] => some meta
  | pos :: rest =>
    match appNameVisit ctx data_str meta pos with
    | none => none
    | some (some m) => some m
    | some none => appNameLoop ctx data_str meta rest

/-- The printable sweep of src/rs/dmg.rs `extract_app_names` over the first 16384
bytes: collect runs of printable bytes of length 5..=100 that carry an installer
keyword or are clean, and are not skip-listed (a trailing unterminated run is
dropped, as in the source). -/
def sweepLoop (ctx : Ctx) : RStr → RStr → List RStr → List RStr
  | [], _, acc => acc
  | b :: t, current, acc =>
    if 32 ≤ b ∧ b ≤ 126 then sweepLoop ctx t (current ++ [b]) acc
    else if ¬ current = [] then
      let acc :=
        if 5 ≤ current.length ∧ current.length ≤ 100 then
          let lower := ctx.toLower current
          let has_installer_keyword :=
            containsSub current (S "Installer") || containsSub current (S "Setup")
          let is_clean_string :=
            3 < ((rchars current).filter ctx.isAlphabetic).length ∧
            ((rchars current).filter (fun c =>
              ctx.isAlphanumeric c || rIsWhitespace c)).length = current.length
          let not_skipped := ¬ skipPatterns.any (fun p => containsSub lower p)
          if (has_installer_keyword ∨ is_clean_string) ∧ not_skipped then acc ++ [current]
          else acc
        else acc
      sweepLoop ctx t [] acc
    else sweepLoop ctx t [] acc

/-- src/rs/dmg.rs `extract_app_names`: the `.app` scan, then the printable sweep
preferring strings containing `Installer` or `Setup`. -/
def extract_app_names (ctx : Ctx) (data : RStr) (meta : Meta) : Option Meta :=
  let data_str := lossyBytes data
  match appNameLoop ctx data_str meta (findAllSub data_str (S ".app")) with
  | none => none
  | some meta =>
    if ¬ mhas meta (S "ProductName") then
      let search_limit := min 16384 data.length
      let valid_strings := sweepLoop ctx (data.take search_limit) [] []
      match valid_strings.find? (fun s =>
          containsSub s (S "Installer") || containsSub s (S "Setup")) with
      | some name => some (minsert meta (S "ProductName") name)
      | none =>
        match valid_strings.head? with
        | some name => some (minsert meta (S "ProductName") name)
        | none => some meta
    else some meta

/-- src/rs/dmg.rs `sanitize_string`: drop control characters, normalize
whitespace runs to single spaces, trim. -/
def sanitize_string (s : RStr) : RStr :=
  let filtered := (rchars s).filter (fun c => ¬ rIsControl c || rIsWhitespace c)
  rtrim (joinSep (S " ") ((splitWsChars filtered).map ofChars))

/-- First statement group of src/rs/dmg.rs `create_field_aliases`: sanitize
`ProductName` and synthesize `ProgramName` / `FileDescription`. -/
def aliasPnBlock (meta : Meta) : Meta :=
  match mfind meta (S "ProductName") with
  | some product_name =>
    let sanitized := sanitize_string product_name
    if ¬ sanitized = [] then
      let meta := minsert meta (S "ProductName") sanitized
      let meta :=
        if ¬ mhas meta (S "ProgramName") then minsert meta (S "ProgramName") sanitized
        else meta
      if ¬ mhas meta (S "FileDescription") then
        minsert meta (S "FileDescription") (sanitized ++ S " Installer")
      else meta
    else meta
  | none => meta

/-- Second statement group of src/rs/dmg.rs `create_field_aliases`: mirror
`CompanyName` into `Vendor` and `Publisher` when absent. -/
def aliasCnBlock (meta : Meta) : Meta :=
  match mfind meta (S "CompanyName") with
  | some company =>
    let meta := if ¬ mhas meta (S "Vendor") then minsert meta (S "Vendor") company else meta
    if ¬ mhas meta (S "Publisher") then minsert meta (S "Publisher") company else meta
  | none => meta

/-- Third statement group of src/rs/dmg.rs `create_field_aliases`: mirror
`ProductVersion` into the three version aliases when absent. -/
def aliasPvBlock (meta : Meta) : Meta :=
  match mfind meta (S "ProductVersion") with
  | some version =>
    let meta :=
      if ¬ mhas meta (S "FileVersion") then minsert meta (S "FileVersion") version else meta
    let meta :=
      if ¬ mhas meta (S "FileVersionNumber") then
        minsert meta (S "FileVersionNumber") version
      else meta
    if ¬ mhas meta (S "ProductVersionNumber") then
      minsert meta (S "ProductVersionNumber") version
    else meta
  | none => meta

/-- Fourth statement group of src/rs/dmg.rs `create_field_aliases`: default
`FileDescription`. -/
def aliasFdBlock (meta : Meta) : Meta :=
  if ¬ mhas meta (S "FileDescription") then
    minsert meta (S "FileDescription") (S "Apple Disk Image")
  else meta

/-- src/rs/dmg.rs `create_field_aliases`: the four statement groups in order. -/
def create_field_aliases (meta : Meta) : Meta :=
  aliasFdBlock (aliasPvBlock (aliasCnBlock (aliasPnBlock meta)))

/-- The conditional heuristic phase of src/rs/dmg.rs `extract_product_info`,
run when name or version is missing after the plist parse.  `none` models an
abort inside the heuristics. -/
def dmgHeurPhase (ctx : Ctx) (data : RStr) (meta : Meta) : Option Meta :=
  if ¬ mhas meta (S "ProductName") ∨ ¬ mhas meta (S "ProductVersion") then
    let data_str := lossyBytes data
    let meta := extract_plist_info ctx data_str meta
    let meta := extract_version_strings ctx data_str meta
    let meta := extract_bundle_info ctx data_str meta
    match extract_developer_info ctx data_str meta with
    | none => none
    | some meta =>
      if ¬ mhas meta (S "ProductName") then extract_app_names ctx data meta
      else some meta
  else some meta

/-- src/rs/dmg.rs `extract_product_info`: plist discovery and parse, conditional
heuristics when name or version is missing, then alias synthesis. -/
def extract_product_info (ctx : Ctx) (data : RStr) (meta : Meta) : Option Meta :=
  match find_plist_in_dmg data with
  | none => none
  | some plist? =>
    let meta :=
      match plist? with
      | some plist_data => parse_plist_properly ctx plist_data meta
      | none => meta
    (dmgHeurPhase ctx data meta).map create_field_aliases

/-- The straight-line prefix of src/rs/dmg.rs `parse_dmg_metadata`: the
always-inserted format fields, the compression sniff and the koly trailer
fields. -/
def dmgBaseMeta (data : RStr) : Meta :=
  let meta := minsert [] (S "Format") (S "DMG")
  let meta := minsert meta (S "Architecture") (S "macOS Disk Image")
  let meta :=
    if 4 ≤ data.length then
      let compression :=
        if slice data 0 2 = [0x78, 0x01] ∨ slice data 0 2 = [0x78, 0x5E] ∨
           slice data 0 2 = [0x78, 0x9C] ∨ slice data 0 2 = [0x78, 0xDA] then S "zlib"
        else if slice data 0 2 = [0x1F, 0x8B] then S "gzip"
        else if slice data 0 4 = [0x42, 0x5A, 0x68, 0x39] ∨
            slice data 0 4 = [0x42, 0x5A, 0x68, 0x31] then S "bzip2"
        else if byteAt data 0 = 0 ∧ byteAt data 1 = 0 then S "uncompressed"
        else S "unknown"
      minsert meta (S "Compression") compression
    else meta
  let meta :=
    if 512 ≤ data.length then
      let koly_offset := data.length - 512
      if slice data koly_offset (koly_offset + 4) = S "koly" then
        let meta := minsert meta (S "HasKolySignature") (S "true")
        let meta := minsert meta (S "KolyOffset") (natDec koly_offset)
        if koly_offset + 8 ≤ data.length then
          minsert meta (S "DMGVersion") (natDec (u32be data (koly_offset + 4)))
        else meta
      else meta
    else meta
  minsert meta (S "ImageType") (S "UDIF")

/-- src/rs/dmg.rs `parse_dmg_metadata`: the straight-line field prefix, then
product-info discovery.  The source always returns `Ok`; `none` models an abort
inside the heuristics. -/
def parse_dmg_metadata (ctx : Ctx) (data : RStr) : Option Meta :=
  extract_product_info ctx data (dmgBaseMeta data)

/-- The set of keys the product-info phase of src/rs/dmg.rs may insert: the
targets of `parse_plist_properly` and of all the heuristic and alias
statements. -/
def dmgHeurKeys : List RStr :=
  [S "ProductName", S "DisplayName", S "ExecutableName", S "BundleIdentifier",
   S "ProductVersion", S "FileVersion", S "FileVersionNumber", S "ProductVersionNumber",
   S "LegalCopyright", S "FileDescription", S "ApplicationCategory", S "PackageType",
   S "PrincipalClass", S "IconFile", S "MinimumSystemVersion", S "CompanyName",
   S "Manufacturer", S "Publisher", S "Vendor", S "ProgramName", S "ApplicationBundle"]

/-- src/rs/dmg.rs `DMGAnalyzer::get_file_info`. -/
def get_file_info (data : RStr) : Meta :=
  minsert (minsert [] (S "type") (S "DMG (Apple Disk Image)")) (S "size") (natDec data.length)

end Dmg

namespace Lib

/-- src/rs/lib.rs `parse_metadata`: sniffer dispatch in source order (MSI, DMG,
DEB, RPM), then the goblin `Object::parse` fallback matching only PE.  `none`
models an abort inside the DMG heuristics. -/
def parse_metadata (ctx : Ctx) (buf : RStr) : Option (Except RStr Meta) :=
  if Msi.is_msi_file buf then some (Msi.parse_metadata ctx buf)
  else if Dmg.is_dmg_file buf then
    match Dmg.parse_dmg_metadata ctx buf with
    | some m => some (.ok m)
    | none => none
  else if Deb.is_deb_file ctx buf then some (Deb.parse_metadata ctx buf)
  else if Rpm.is_rpm_file buf then some (Rpm.parse_metadata buf)
  else
    match ctx.goblinObject buf with
    | .error e => some (.error (S "Failed to parse file: " ++ e))
    | .ok GoblinObj.pe => some (Pe.parse_metadata ctx buf)
    | .ok GoblinObj.other =>
      some (.error (S "Unsupported file format. Supported formats: PE, MSI, DMG, DEB, RPM."))

/-- src/rs/lib.rs `get_file_info`, up to the JSON serialization boundary (outside
the library core per the spec): the per-analyzer info map, `Unsupported` or
`Invalid binary`, with `Size` appended unconditionally at the end. -/
def get_file_info (ctx : Ctx) (data : RStr) : Meta :=
  let info :=
    if Msi.is_msi_file data then Msi.get_file_info data
    else if Dmg.is_dmg_file data then Dmg.get_file_info data
    else if Deb.is_deb_file ctx data then Deb.get_file_info data
    else if Rpm.is_rpm_file data then Rpm.get_file_info data
    else
      match ctx.goblinObject data with
      | .ok GoblinObj.pe => Pe.get_file_info data
      | .ok GoblinObj.other => minsert [] (S "Format") (S "Unsupported")
      | .error _ => minsert [] (S "Format") (S "Invalid binary")
  minsert info (S "Size") (natDec data.length)

end Lib

/-- ASCII alphabetic test; agrees with Rust `char::is_alphabetic` on ASCII. -/
def asciiIsAlphabetic (c : Char) : Bool :=
  (65 ≤ c.toNat ∧ c.toNat ≤ 90) ∨ (97 ≤ c.toNat ∧ c.toNat ≤ 122)

/-- ASCII alphanumeric test; agrees with Rust `char::is_alphanumeric` on ASCII. -/
def asciiIsAlphanumeric (c : Char) : Bool :=
  asciiIsAlphabetic c || (48 ≤ c.toNat ∧ c.toNat ≤ 57)

/-- ASCII numeric test; agrees with Rust `char::is_numeric` on ASCII. -/
def asciiIsNumeric (c : Char) : Bool := 48 ≤ c.toNat ∧ c.toNat ≤ 57

/-- ASCII lowercasing of a byte string; agrees with Rust `str::to_lowercase` on
ASCII input (non-ASCII UTF-8 bytes are all at least 0x80 and are left alone). -/
def asciiToLower (b : RStr) : RStr := b.map (fun x => if 65 ≤ x ∧ x ≤ 90 then x + 32 else x)

/-- ASCII char uppercasing; agrees with Rust `char::to_uppercase` on ASCII. -/
def asciiCharUpper (c : Char) : List Char :=
  [if 97 ≤ c.toNat ∧ c.toNat ≤ 122 then Char.ofNat (c.toNat - 32) else c]

/-- A baseline context: every external parser fails or returns nothing, and the
character classes are the ASCII restrictions of the Rust Unicode tables (they
agree with Rust on the pure-ASCII data used by the concrete inputs below). -/
def noCtx : Ctx where
  cfbOpen := fun _ => .error (S "CfbError")
  arEntries := fun _ => []
  plistDict := fun _ => none
  goblinObject := fun _ => .error (S "goblin error")
  goblinPE := fun _ => .error (S "goblin error")
  pe32 := fun _ => none
  pe64 := fun _ => none
  isAlphabetic := asciiIsAlphabetic
  isAlphanumeric := asciiIsAlphanumeric
  isNumeric := asciiIsNumeric
  toLower := asciiToLower
  charUpper := asciiCharUpper

/-- A minimal RPM: 96-byte Lead, empty Signature Header, Immutable Header with
tags 1000 = "foo", 1001 = "1.0", 1022 = "x86_64" (the round-trip example of the
spec). -/
def rpmFoo : RStr :=
  [0xED, 0xAB, 0xEE, 0xDB] ++ List.replicate 92 0 ++
  [0x8E, 0xAD, 0xE8, 0x01, 0, 0, 0, 0, 0, 0, 0, 0, 0, 0, 0, 0] ++
  [0x8E, 0xAD, 0xE8, 0x01, 0, 0, 0, 0, 0, 0, 0, 3, 0, 0, 0, 15] ++
  [0, 0, 3, 0xE8, 0, 0, 0, 6, 0, 0, 0, 0, 0, 0, 0, 1] ++
  [0, 0, 3, 0xE9, 0, 0, 0, 6, 0, 0, 0, 4, 0, 0, 0, 1] ++
  [0, 0, 3, 0xFE, 0, 0, 0, 6, 0, 0, 0, 8, 0, 0, 0, 1] ++
  (S "foo" ++ [0] ++ S "1.0" ++ [0] ++ S "x86_64" ++ [0])

/-- A minimal RPM whose single store string (tag 1000) is 201 bytes of `a`. -/
def rpmLong : RStr :=
  [0xED, 0xAB, 0xEE, 0xDB] ++ List.replicate 92 0 ++
  [0x8E, 0xAD, 0xE8, 0x01, 0, 0, 0, 0, 0, 0, 0, 0, 0, 0, 0, 0] ++
  [0x8E, 0xAD, 0xE8, 0x01, 0, 0, 0, 0, 0, 0, 0, 1, 0, 0, 0, 202] ++
  [0, 0, 3, 0xE8, 0, 0, 0, 6, 0, 0, 0, 0, 0, 0, 0, 1] ++
  (List.replicate 201 97 ++ [0])

/-- The bare 8-byte OLE compound-file magic. -/
def oleMagic8 : RStr := [0xD0, 0xCF, 0x11, 0xE0, 0xA1, 0xB1, 0x1A, 0xE1]

/-- An OLE-magic buffer followed by a `ProductName` marker and a printable run,
so that the MSI heuristics recover `ProductName = "MyApp"`. -/
def msiPN : RStr := oleMagic8 ++ S "ProductNameMyApp" ++ [0]

/-- A 200-byte PE-like buffer (MZ header bytes, then zeros) carrying the OLE
magic at offset 192; the 8-byte embedded "MSI" yields no fields. -/
def pePlain : RStr :=
  [77, 90] ++ List.replicate 190 0 ++ oleMagic8

/-- A context whose goblin PE parse succeeds as 64-bit and whose pelite parses
fail; used with `pePlain`. -/
def ctxPe : Ctx := { noCtx with goblinPE := fun _ => .ok true }

/-- A pelite image with zeroed header fields whose version info carries one
translation with the single string-table entry `CompanyName = "TableCo"`. -/
def img6 : PeliteImage where
  machine := 0
  numberOfSections := 0
  sizeOfOptionalHeader := 0
  characteristics := 0
  pointerToSymbolTable := 0
  numberOfSymbols := 0
  timeDateStamp := 0
  entryPoint := 0
  imageBase := 0
  sizeOfImage := 0
  subsystem := 0
  dllCharacteristics := 0
  resources := .ok ⟨.ok ⟨none, [⟨S "L0", [(S "CompanyName", S "TableCo")]⟩]⟩⟩

/-- The context for the digital-signature scenario: goblin sees a 64-bit PE and
pelite returns `img6`. -/
def ctx6 : Ctx := { noCtx with goblinPE := fun _ => .ok true, pe64 := fun _ => some img6 }

/-- A buffer whose only interesting content is a `CN=` digital-signature
fragment. -/
def buf6 : RStr := S "CN=Acme Corp"

/-- A 512-byte DMG whose `koly` trailer sits at offset 0 and whose content holds
fifty `é` characters followed by `xInc.`: the ±100-byte context slice around
`Inc.` then starts inside a multibyte character, which aborts the Rust source
(str slice on a non char boundary). -/
def dmgAbort : RStr :=
  S "koly" ++ [0, 0, 0, 0] ++ catLists (List.replicate 50 [0xC3, 0xA9]) ++
  S "xInc." ++ List.replicate 399 0

/-- A 512-byte DMG with the `koly` trailer at offset 0 and neutral content. -/
def dmgPlain : RStr := S "koly" ++ List.replicate 508 0

/-- The ar-entry list of a well-formed minimal DEB: `debian-binary`, then
`control.tar.gz` whose tar holds `./control` with three fields. -/
def debControl : RStr := S "Package: pkg\nVersion: 1.2.3\nArchitecture: all\n"

/-- See `debControl`: the oracle rendering of the minimal DEB archive. -/
def debEntries : List (Except RStr ArEnt) :=
  [.ok ⟨S "debian-binary", .error (S "not a gzip")⟩,
   .ok ⟨S "control.tar.gz", .ok [.ok ⟨.ok (some (S "./control")), .ok debControl⟩]⟩]

/-- A context serving `debEntries` for every buffer. -/
def ctxDeb : Ctx := { noCtx with arEntries := fun _ => debEntries }

/-- The `!<arch>\n` magic followed by padding, sniffed as DEB under `ctxDeb`. -/
def debBuf : RStr := S "!<arch>\n" ++ List.replicate 56 0

/-! Lemmas about the map operations and the analyzer helpers, followed by one
theorem per specification claim. -/

theorem mfind_minsert (m : Meta) (k q : RStr) (v : RStr) :
    mfind (minsert m k v) q = if q = k then some v else mfind m q := by
  induction m with
  | nil =>
    by_cases hq : q = k
    · subst hq; simp [minsert, mfind]
    · have hq2 : ¬ k = q := fun h => hq h.symm
      simp [minsert, mfind, hq, hq2]
  | cons h t ih =>
    obtain ⟨k0, v0⟩ := h
    by_cases hk : k0 = k
    · subst hk
      by_cases hq : q = k0
      · subst hq; simp [minsert, mfind]
      · have hq2 : ¬ k0 = q := fun h => hq h.symm
        simp [minsert, mfind, hq, hq2]
    · by_cases hq : k0 = q
      · subst hq
        simp [minsert, mfind, hk]
      · simp [minsert, mfind, hk, hq, ih]

theorem mhas_minsert (m : Meta) (k q : RStr) (v : RStr) :
    mhas (minsert m k v) q = if q = k then true else mhas m q := by
  unfold mhas
  rw [mfind_minsert]
  by_cases hq : q = k <;> simp [hq]

set_option maxRecDepth 200000

set_option maxHeartbeats 2000000

theorem aliasPnBlock_find_ne (meta : Meta) (q : RStr)
    (h1 : ¬ q = S "ProductName") (h2 : ¬ q = S "ProgramName")
    (h3 : ¬ q = S "FileDescription") :
    mfind (Dmg.aliasPnBlock meta) q = mfind meta q := by
  unfold Dmg.aliasPnBlock
  repeat' split <;> try simp [mfind_minsert, h1, h2, h3]

theorem aliasCnBlock_find_ne (meta : Meta) (q : RStr)
    (h1 : ¬ q = S "Vendor") (h2 : ¬ q = S "Publisher") :
    mfind (Dmg.aliasCnBlock meta) q = mfind meta q := by
  unfold Dmg.aliasCnBlock
  repeat' split <;> try simp [mfind_minsert, h1, h2]

theorem aliasPvBlock_pv (meta : Meta) (pv : RStr)
    (hpv : mfind meta (S "ProductVersion") = some pv) :
    (mfind meta (S "FileVersion") = none →
      mfind (Dmg.aliasPvBlock meta) (S "FileVersion") = some pv) ∧
    (mfind meta (S "FileVersionNumber") = none →
      mfind (Dmg.aliasPvBlock meta) (S "FileVersionNumber") = some pv) ∧
    (mfind meta (S "ProductVersionNumber") = none →
      mfind (Dmg.aliasPvBlock meta) (S "ProductVersionNumber") = some pv) := by
  unfold Dmg.aliasPvBlock
  rw [hpv]
  repeat' split <;> try simp_all +decide [mfind_minsert, mhas_minsert, mhas]

theorem aliasFdBlock_find_ne (meta : Meta) (q : RStr)
    (h : ¬ q = S "FileDescription") :
    mfind (Dmg.aliasFdBlock meta) q = mfind meta q := by
  unfold Dmg.aliasFdBlock
  split <;> try simp [mfind_minsert, h]

/-- C1 counterexample: the claim asserts that every successful extraction
synthesizes `FileVersion` from `ProductVersion`, and in particular that the
minimal RPM with tags 1000/1001/1022 carries `FileVersion = "1.0"`.  The RPM
analyzer never runs the alias pass: the extracted map holds
`ProductVersion = "1.0"` but no `FileVersion`. -/
theorem C1_counterexample :
    Rpm.parse_metadata rpmFoo =
      .ok [(S "Format", S "RPM"), (S "ProductName", S "foo"),
           (S "ProductVersion", S "1.0"), (S "Architecture", S "x86_64")] ∧
    mfind [(S "Format", S "RPM"), (S "ProductName", S "foo"),
           (S "ProductVersion", S "1.0"), (S "Architecture", S "x86_64")]
      (S "FileVersion") = none := by
  decide

/-- C1 amended: the version-alias synthesis holds where the alias pass actually
runs, namely `create_field_aliases` on the DMG path: if the map before
normalization holds `ProductVersion` and lacks `FileVersion`,
`FileVersionNumber` or `ProductVersionNumber`, the pass fills each missing one
with the `ProductVersion` value.  The RPM analyzer (and the MSI and PE
analyzers) never invoke this pass, so the RPM round-trip example of the claim
yields no `FileVersion`. -/
theorem C1_amended (m : Meta) (pv : RStr)
    (hpv : mfind m (S "ProductVersion") = some pv) :
    (mfind m (S "FileVersion") = none →
      mfind (Dmg.create_field_aliases m) (S "FileVersion") = some pv) ∧
    (mfind m (S "FileVersionNumber") = none →
      mfind (Dmg.create_field_aliases m) (S "FileVersionNumber") = some pv) ∧
    (mfind m (S "ProductVersionNumber") = none →
      mfind (Dmg.create_field_aliases m) (S "ProductVersionNumber") = some pv) := by
  unfold Dmg.create_field_aliases
  have hm2pv : mfind (Dmg.aliasCnBlock (Dmg.aliasPnBlock m)) (S "ProductVersion") = some pv := by
    rw [aliasCnBlock_find_ne _ _ (by decide) (by decide),
        aliasPnBlock_find_ne _ _ (by decide) (by decide) (by decide), hpv]
  have hpres : ∀ q : RStr, ¬ q = S "ProductName" → ¬ q = S "ProgramName" →
      ¬ q = S "FileDescription" → ¬ q = S "Vendor" → ¬ q = S "Publisher" →
      mfind (Dmg.aliasCnBlock (Dmg.aliasPnBlock m)) q = mfind m q := by
    intro q a1 a2 a3 a4 a5
    rw [aliasCnBlock_find_ne _ _ a4 a5, aliasPnBlock_find_ne _ _ a1 a2 a3]
  obtain ⟨p1, p2, p3⟩ := aliasPvBlock_pv (Dmg.aliasCnBlock (Dmg.aliasPnBlock m)) pv hm2pv
  refine ⟨?_, ?_, ?_⟩ <;> intro hnone
  · rw [aliasFdBlock_find_ne _ _ (by decide)]
    exact p1 (by rw [hpres _ (by decide) (by decide) (by decide) (by decide) (by decide)]; exact hnone)
  · rw [aliasFdBlock_find_ne _ _ (by decide)]
    exact p2 (by rw [hpres _ (by decide) (by decide) (by decide) (by decide) (by decide)]; exact hnone)
  · rw [aliasFdBlock_find_ne _ _ (by decide)]
    exact p3 (by rw [hpres _ (by decide) (by decide) (by decide) (by decide) (by decide)]; exact hnone)

/-- C1 witness: the amended theorem applied to a one-entry map holding only
`ProductVersion = "1.0"`. -/
theorem C1_witness :
    mfind [(S "ProductVersion", S "1.0")] (S "ProductVersion") = some (S "1.0") ∧
    mfind (Dmg.create_field_aliases [(S "ProductVersion", S "1.0")])
      (S "FileVersion") = some (S "1.0") :=
  ⟨by decide, (C1_amended [(S "ProductVersion", S "1.0")] (S "1.0") (by decide)).1 (by decide)⟩

/-- C2 counterexample: the claim asserts that the analyze path
(`parse_metadata` / `analyze_file`) always carries `Size`.  The minimal RPM
dispatches to the RPM analyzer and its successful map holds no `Size` key
(`Size` is appended only by `get_file_info`). -/
theorem C2_counterexample :
    Lib.parse_metadata noCtx rpmFoo =
      some (.ok [(S "Format", S "RPM"), (S "ProductName", S "foo"),
                 (S "ProductVersion", S "1.0"), (S "Architecture", S "x86_64")]) ∧
    mfind [(S "Format", S "RPM"), (S "ProductName", S "foo"),
           (S "ProductVersion", S "1.0"), (S "Architecture", S "x86_64")]
      (S "Size") = none := by
  decide

/-- C2 amended: `Size` (decimal byte length of the input) is appended
unconditionally on the info path, `get_file_info`, for every input and every
outcome including Unsupported and Invalid binary; the analyze path returns the
analyzer map unchanged, without `Size`. -/
theorem C2_amended (ctx : Ctx) (data : RStr) :
    mfind (Lib.get_file_info ctx data) (S "Size") = some (natDec data.length) := by
  simp [Lib.get_file_info, mfind_minsert]

theorem insertS_mem {α : Type} (le : α → α → Bool) (x : α) (l : List α) (a : α) :
    a ∈ insertS le x l ↔ a = x ∨ a ∈ l := by
  induction l with
  | nil => simp [insertS]
  | cons y t ih =>
    by_cases h : le x y
    · simp [insertS, h]
    · simp only [insertS, if_neg h, List.mem_cons, ih]
      tauto

theorem sortS_mem {α : Type} (le : α → α → Bool) (l : List α) (a : α) :
    a ∈ sortS le l ↔ a ∈ l := by
  induction l with
  | nil => simp [sortS]
  | cons x t ih => simp [sortS, insertS_mem, ih]

theorem insertS_pairwise {α : Type} (le : α → α → Bool)
    (total : ∀ a b, le a b = true ∨ le b a = true)
    (trans : ∀ a b c, le a b = true → le b c = true → le a c = true)
    (x : α) (l : List α) (h : l.Pairwise (fun a b => le a b = true)) :
    (insertS le x l).Pairwise (fun a b => le a b = true) := by
  induction l with
  | nil => simp [insertS]
  | cons y t ih =>
    rcases List.pairwise_cons.mp h with ⟨hy, ht⟩
    by_cases hxy : le x y
    · simp only [insertS, if_pos hxy]
      refine List.pairwise_cons.mpr ⟨?_, h⟩
      intro z hz
      rcases List.mem_cons.mp hz with hz | hz
      · rw [hz]; exact hxy
      · exact trans x y z hxy (hy z hz)
    · simp only [insertS, if_neg hxy]
      refine List.pairwise_cons.mpr ⟨?_, ih ht⟩
      intro z hz
      rcases (insertS_mem le x t z).mp hz with hz | hz
      · rw [hz]
        rcases total x y with hx | hx
        · exact absurd hx hxy
        · exact hx
      · exact hy z hz

theorem sortS_pairwise {α : Type} (le : α → α → Bool)
    (total : ∀ a b, le a b = true ∨ le b a = true)
    (trans : ∀ a b c, le a b = true → le b c = true → le a c = true)
    (l : List α) : (sortS le l).Pairwise (fun a b => le a b = true) := by
  induction l with
  | nil => simp [sortS]
  | cons x t ih => exact insertS_pairwise le total trans x (sortS le t) ih

theorem pairwise_getLast_le {α : Type} (le : α → α → Bool)
    (hrefl : ∀ a, le a a = true) :
    ∀ (l : List α), l.Pairwise (fun a b => le a b = true) →
      ∀ m, l.getLast? = some m → ∀ a ∈ l, le a m = true := by
  intro l
  induction l with
  | nil => intro _ m hm; simp at hm
  | cons x t ih =>
    intro hp m hm a ha
    rcases List.pairwise_cons.mp hp with ⟨hx, ht⟩
    cases t with
    | nil =>
      simp only [List.getLast?_singleton, Option.some.injEq] at hm
      simp only [List.mem_singleton] at ha
      subst hm
      subst ha
      exact hrefl a
    | cons y t2 =>
      rw [List.getLast?_cons_cons] at hm
      have hmmem : m ∈ y :: t2 := List.mem_of_mem_getLast? hm
      rcases List.mem_cons.mp ha with ha | ha
      · subst ha; exact hx m hmmem
      · exact ih ht m hm a ha

theorem vle_refl (a : RStr) : Msi.vle a a = true := by
  unfold Msi.vle
  cases h : (Msi.vkey a).2 <;> simp

theorem vle_total (a b : RStr) : Msi.vle a b = true ∨ Msi.vle b a = true := by
  unfold Msi.vle
  rcases Nat.lt_trichotomy (Msi.vkey a).1 (Msi.vkey b).1 with h | h | h
  · left; simp [h]
  · cases ha : (Msi.vkey a).2 <;> cases hb : (Msi.vkey b).2 <;> simp [h, ha, hb]
  · right; simp [h]

theorem vle_trans (a b c : RStr) (h1 : Msi.vle a b = true) (h2 : Msi.vle b c = true) :
    Msi.vle a c = true := by
  unfold Msi.vle at h1 h2 ⊢
  rcases Bool.or_eq_true_iff.mp h1 with h1 | h1 <;>
    rcases Bool.or_eq_true_iff.mp h2 with h2 | h2
  · simp at h1 h2 ⊢; left; omega
  · simp at h1 h2 ⊢; rcases h2 with ⟨h2a, _⟩; left; omega
  · simp at h1 h2 ⊢; rcases h1 with ⟨h1a, _⟩; left; omega
  · simp at h1 h2 ⊢
    rcases h1 with ⟨h1a, h1b⟩
    rcases h2 with ⟨h2a, h2b⟩
    right
    refine ⟨by omega, ?_⟩
    cases ha : (Msi.vkey a).2 <;> cases hb : (Msi.vkey b).2 <;>
      cases hc : (Msi.vkey c).2 <;> simp_all

/-- C7 counterexample: the claim asserts the version scanner considers only
maximal digits-and-dots runs, so that "12.34" yields "12.34".  The scanner
starts candidates only at a digit-dot-digit position, so on "12.34!!!!!" the
only candidate is the proper suffix "2.34", which it returns. -/
theorem C7_counterexample :
    Msi.extract_version_pattern (S "12.34!!!!!") = some (S "2.34") ∧
    ¬ (S "12.34") ∈ Msi.versionCandidates (S "12.34!!!!!") := by
  decide

/-- C7 amended: the candidates are the digits-and-dots runs starting at any
digit-dot-digit position `i < len - 5` (so a candidate can be a proper suffix of
a longer run), truncated at 21 bytes, with 2 to 4 nonempty `u32`-parsable parts;
the scanner returns a candidate that is maximal for the key (number of dots, not
starting with "3."), i.e. most dots first, ties broken against major version 3. -/
theorem C7_amended (data : RStr) (v : RStr)
    (h : Msi.extract_version_pattern data = some v) :
    v ∈ Msi.versionCandidates data ∧
    ∀ w ∈ Msi.versionCandidates data, Msi.vle w v = true := by
  unfold Msi.extract_version_pattern at h
  constructor
  · exact (sortS_mem Msi.vle (Msi.versionCandidates data) v).mp (List.mem_of_mem_getLast? h)
  · intro w hw
    exact pairwise_getLast_le Msi.vle vle_refl (sortS Msi.vle (Msi.versionCandidates data))
      (sortS_pairwise Msi.vle vle_total vle_trans _) v h w
      ((sortS_mem Msi.vle (Msi.versionCandidates data) w).mpr hw)

/-- C7 witness: on "a 1.2 b 3.4.5 c" the scanner picks "3.4.5" (more dots than
"1.2") and it is one of the candidates. -/
theorem C7_witness :
    Msi.extract_version_pattern (S "a 1.2 b 3.4.5 c") = some (S "3.4.5") ∧
    (S "3.4.5") ∈ Msi.versionCandidates (S "a 1.2 b 3.4.5 c") :=
  ⟨by decide, (C7_amended (S "a 1.2 b 3.4.5 c") (S "3.4.5") (by decide)).1⟩

/-- C9 counterexample: the claim bounds every output value by 200 bytes with no
control characters.  RPM store strings are inserted raw: a store holding 201
`a` bytes yields a 201-byte `ProductName`. -/
theorem C9_counterexample :
    Rpm.parse_metadata rpmLong =
      .ok [(S "Format", S "RPM"), (S "ProductName", List.replicate 201 97)] ∧
    200 < (List.replicate 201 97 : RStr).length := by
  decide

/-- C9 amended: the length discipline belongs to the heuristic validator only:
any string accepted by `is_valid_metadata_string` has byte length between 3 and
100.  RPM store strings and DEB control values are inserted without any length
or character filtering, so output values can exceed 200 bytes. -/
theorem C9_amended (ctx : Ctx) (s : RStr)
    (h : Msi.is_valid_metadata_string ctx s = true) :
    3 ≤ s.length ∧ s.length ≤ 100 := by
  unfold Msi.is_valid_metadata_string at h
  split at h
  · exact absurd h (by simp)
  · rename_i hcond
    unfold Msi.MIN_METADATA_STRING_LEN Msi.MAX_METADATA_STRING_LEN at hcond
    omega

/-- C9 witness: the validator accepts "Hello", whose length is within bounds. -/
theorem C9_witness :
    Msi.is_valid_metadata_string noCtx (S "Hello") = true ∧
    3 ≤ (S "Hello").length ∧ (S "Hello").length ≤ 100 :=
  ⟨by decide, C9_amended noCtx (S "Hello") (by decide)⟩


/-- C3: the dispatcher probes the sniffers in the fixed order MSI, DMG, DEB,
RPM and finally the goblin PE parse; the first sniffer that accepts determines
the analyzer whose extraction result is returned, and no later analyzer is
consulted. -/
theorem C3_dispatch (ctx : Ctx) (buf : RStr) :
    (Msi.is_msi_file buf = true →
      Lib.parse_metadata ctx buf = some (Msi.parse_metadata ctx buf)) ∧
    (Msi.is_msi_file buf = false → Dmg.is_dmg_file buf = true →
      Lib.parse_metadata ctx buf = (Dmg.parse_dmg_metadata ctx buf).map Except.ok) ∧
    (Msi.is_msi_file buf = false → Dmg.is_dmg_file buf = false →
      Deb.is_deb_file ctx buf = true →
      Lib.parse_metadata ctx buf = some (Deb.parse_metadata ctx buf)) ∧
    (Msi.is_msi_file buf = false → Dmg.is_dmg_file buf = false →
      Deb.is_deb_file ctx buf = false → Rpm.is_rpm_file buf = true →
      Lib.parse_metadata ctx buf = some (Rpm.parse_metadata buf)) ∧
    (Msi.is_msi_file buf = false → Dmg.is_dmg_file buf = false →
      Deb.is_deb_file ctx buf = false → Rpm.is_rpm_file buf = false →
      ctx.goblinObject buf = .ok GoblinObj.pe →
      Lib.parse_metadata ctx buf = some (Pe.parse_metadata ctx buf)) := by
  refine ⟨?_, ?_, ?_, ?_, ?_⟩
  · intro h1; simp [Lib.parse_metadata, h1]
  · intro h1 h2
    simp only [Lib.parse_metadata, h1, h2]
    cases Dmg.parse_dmg_metadata ctx buf <;> simp
  · intro h1 h2 h3; simp [Lib.parse_metadata, h1, h2, h3]
  · intro h1 h2 h3 h4; simp [Lib.parse_metadata, h1, h2, h3, h4]
  · intro h1 h2 h3 h4 h5; simp [Lib.parse_metadata, h1, h2, h3, h4, h5]

/-- C3 witness: the minimal RPM is rejected by the MSI, DMG and DEB sniffers
and handled by the RPM analyzer. -/
theorem C3_witness :
    Lib.parse_metadata noCtx rpmFoo = some (Rpm.parse_metadata rpmFoo) :=
  (C3_dispatch noCtx rpmFoo).2.2.2.1 (by decide) (by decide) (by decide) (by decide)

theorem msipPcBlock_find_ne (b : RStr) (m : Meta) (q : RStr) (h : ¬ q = S "ProductCode") :
    mfind (Msi.msipPcBlock b m) q = mfind m q := by
  unfold Msi.msipPcBlock
  repeat' split <;> try simp [mfind_minsert, h]

theorem msipUcBlock_find_ne (b : RStr) (m : Meta) (q : RStr) (h : ¬ q = S "UpgradeCode") :
    mfind (Msi.msipUcBlock b m) q = mfind m q := by
  unfold Msi.msipUcBlock
  repeat' split <;> try simp [mfind_minsert, h]

theorem msipPvBlock_find_ne (b : RStr) (m : Meta) (q : RStr) (h : ¬ q = S "ProductVersion") :
    mfind (Msi.msipPvBlock b m) q = mfind m q := by
  unfold Msi.msipPvBlock
  repeat' split <;> try simp [mfind_minsert, h]

theorem msipManBlock_find_ne (ctx : Ctx) (b : RStr) (m : Meta) (q : RStr)
    (h : ¬ q = S "Manufacturer") :
    mfind (Msi.msipManBlock ctx b m) q = mfind m q := by
  unfold Msi.msipManBlock
  repeat' split <;> try simp [mfind_minsert, h]

theorem msipPnBlock_find_ne (ctx : Ctx) (b : RStr) (m : Meta) (q : RStr)
    (h : ¬ q = S "ProductName") :
    mfind (Msi.msipPnBlock ctx b m) q = mfind m q := by
  unfold Msi.msipPnBlock
  repeat' split <;> try simp [mfind_minsert, h]

theorem msipFwBlock_find_ne (b : RStr) (m : Meta) (q : RStr)
    (h : ¬ q = S "InstallerFramework") :
    mfind (Msi.msipFwBlock b m) q = mfind m q := by
  unfold Msi.msipFwBlock
  repeat' split <;> try simp [mfind_minsert, h]

theorem extract_msi_properties_find_ne (ctx : Ctx) (buf : RStr) (m : Meta) (q : RStr)
    (h1 : ¬ q = S "ProductCode") (h2 : ¬ q = S "UpgradeCode")
    (h3 : ¬ q = S "ProductVersion") (h4 : ¬ q = S "Manufacturer")
    (h5 : ¬ q = S "ProductName") (h6 : ¬ q = S "InstallerFramework") :
    mfind (Msi.extract_msi_properties ctx buf m) q = mfind m q := by
  unfold Msi.extract_msi_properties
  rw [msipFwBlock_find_ne _ _ _ h6, msipPnBlock_find_ne _ _ _ _ h5,
    msipManBlock_find_ne _ _ _ _ h4, msipPvBlock_find_ne _ _ _ h3,
    msipUcBlock_find_ne _ _ _ h2, msipPcBlock_find_ne _ _ _ h1]

/-- C4: for every input carrying the OLE magic whose compound-file open fails,
MSI extraction still returns success (never an error): the map of the heuristic
fallback with `Format = "MSI"` and `CompoundFileError` set to the open error. -/
theorem C4_msi_error (ctx : Ctx) (buf : RStr) (e : RStr)
    (_hmagic : Msi.is_msi_file buf = true)
    (hcfb : ctx.cfbOpen buf = .error e) :
    Msi.parse_metadata ctx buf =
      .ok (minsert (Msi.extract_msi_properties ctx buf (minsert [] (S "Format") (S "MSI")))
        (S "CompoundFileError") e) ∧
    mfind (minsert (Msi.extract_msi_properties ctx buf (minsert [] (S "Format") (S "MSI")))
      (S "CompoundFileError") e) (S "Format") = some (S "MSI") ∧
    mfind (minsert (Msi.extract_msi_properties ctx buf (minsert [] (S "Format") (S "MSI")))
      (S "CompoundFileError") e) (S "CompoundFileError") = some e := by
  refine ⟨?_, ?_, ?_⟩
  · simp only [Msi.parse_metadata, Msi.parse_msi_metadata, hcfb]
  · rw [mfind_minsert, if_neg (by decide),
      extract_msi_properties_find_ne ctx buf _ _ (by decide) (by decide) (by decide)
        (by decide) (by decide) (by decide)]
    decide
  · rw [mfind_minsert, if_pos rfl]

/-- C4 witness: the bare OLE magic with the failing compound-file oracle. -/
theorem C4_witness :
    Msi.is_msi_file oleMagic8 = true ∧
    noCtx.cfbOpen oleMagic8 = .error (S "CfbError") ∧
    (Msi.parse_metadata noCtx oleMagic8 =
      .ok (minsert (Msi.extract_msi_properties noCtx oleMagic8 (minsert [] (S "Format") (S "MSI")))
        (S "CompoundFileError") (S "CfbError")) ∧
    mfind (minsert (Msi.extract_msi_properties noCtx oleMagic8 (minsert [] (S "Format") (S "MSI")))
      (S "CompoundFileError") (S "CfbError")) (S "Format") = some (S "MSI") ∧
    mfind (minsert (Msi.extract_msi_properties noCtx oleMagic8 (minsert [] (S "Format") (S "MSI")))
      (S "CompoundFileError") (S "CfbError")) (S "CompoundFileError") = some (S "CfbError")) :=
  ⟨by decide, rfl, C4_msi_error noCtx oleMagic8 (S "CfbError") (by decide) rfl⟩


/-- C5 counterexample: the claim asserts that `EmbeddedMSI` implies at least one
`<Key>FromEmbeddedMSI` entry.  A PE whose embedded OLE blob yields none of
ProductName/Manufacturer/ProductVersion sets `EmbeddedMSI` with no
`FromEmbeddedMSI` key at all. -/
theorem C5_counterexample :
    Pe.parse_metadata ctxPe pePlain =
      .ok [(S "Format", S "PE"), (S "EmbeddedMSI", S "true"),
           (S "MSIOffset", S "192"), (S "Architecture", S "x64")] ∧
    mhas [(S "Format", S "PE"), (S "EmbeddedMSI", S "true"),
          (S "MSIOffset", S "192"), (S "Architecture", S "x64")] (S "EmbeddedMSI") = true ∧
    ([(S "Format", S "PE"), (S "EmbeddedMSI", S "true"),
      (S "MSIOffset", S "192"), (S "Architecture", S "x64")] : Meta).all
      (fun kv => ! (S "FromEmbeddedMSI").isSuffixOf kv.1) = true := by
  decide

/-- C5 amended: when the embedded-MSI import actually fires for a field pair
(the MSI key is present in the embedded extraction and the PE slot is absent),
both `<Key>FromEmbeddedMSI` with the raw value and `<Key>` with the value plus
" (from embedded MSI)" are set; but `EmbeddedMSI` alone guarantees no
`FromEmbeddedMSI` key (and later version-info writes can overwrite the primary
slot). -/
theorem C5_amended (ctx : Ctx) (buf : RStr) (off : Nat) (meta : Meta)
    (mk pk v : RStr) (msiMeta : Meta)
    (hmem : (mk, pk) ∈ Pe.msi_fields)
    (hoff : off < buf.length)
    (hparse : Msi.parse_metadata ctx (buf.drop off) = .ok msiMeta)
    (hv : mfind msiMeta mk = some v)
    (habsent : mhas meta pk = false) :
    mfind (Pe.extract_embedded_msi_metadata ctx buf off meta)
      (pk ++ S "FromEmbeddedMSI") = some v ∧
    mfind (Pe.extract_embedded_msi_metadata ctx buf off meta) pk =
      some (v ++ S " (from embedded MSI)") := by
  unfold Pe.extract_embedded_msi_metadata
  rw [if_neg (by omega)]
  simp only [hparse]
  simp only [Pe.msi_fields, List.mem_cons, List.mem_singleton, Prod.mk.injEq,
    List.not_mem_nil, or_false] at hmem
  rcases hmem with ⟨rfl, rfl⟩ | ⟨rfl, rfl⟩ | ⟨rfl, rfl⟩ | ⟨rfl, rfl⟩ <;>
    simp only [Pe.msi_fields, List.foldl] <;>
    rw [hv] <;>
    repeat' split <;> try simp_all +decide [mfind_minsert, mhas_minsert, mhas]

/-- C5 witness: the amended theorem at an embedded MSI that recovers
ProductName = "MyApp" through the heuristics, imported into an empty PE slot. -/
theorem C5_witness :
    mfind (Pe.extract_embedded_msi_metadata noCtx msiPN 0 [(S "Format", S "PE")])
      (S "ProductName" ++ S "FromEmbeddedMSI") = some (S "MyApp") ∧
    mfind (Pe.extract_embedded_msi_metadata noCtx msiPN 0 [(S "Format", S "PE")])
      (S "ProductName") = some (S "MyApp" ++ S " (from embedded MSI)") :=
  C5_amended noCtx msiPN 0 [(S "Format", S "PE")] (S "ProductName") (S "ProductName")
    (S "MyApp")
    [(S "Format", S "MSI"), (S "ProductName", S "MyApp"), (S "CompoundFileError", S "CfbError")]
    (by decide) (by decide) (by decide) (by decide) (by decide)

theorem append_key_ne (p x q : RStr) (h : p.isPrefixOf q = false) : ¬ (p ++ x = q) := by
  intro he
  have hp : p <+: q := ⟨x, he⟩
  rw [← List.isPrefixOf_iff_prefix] at hp
  rw [h] at hp
  exact Bool.false_ne_true hp

theorem transStrsFold_meta (idx : Nat) (q : RStr)
    (hqD : (S "Debug_").isPrefixOf q = false) :
    ∀ (strs : List (RStr × RStr)) (st : Nat × Meta × Meta),
      mfind (strs.foldl (Pe.transStrsStep idx) st).2.1 q = mfind st.2.1 q := by
  intro strs
  induction strs with
  | nil => intro st; rfl
  | cons kv t ih =>
    intro st
    rw [List.foldl_cons, ih]
    unfold Pe.transStrsStep
    simp only []
    rw [mfind_minsert, if_neg (fun he => append_key_ne _ _ _ hqD he.symm)]

theorem transStrsFold_alls (idx : Nat) :
    ∀ (strs : List (RStr × RStr)), (∀ kv ∈ strs, kv.2 = ([] : RStr)) →
      ∀ (st : Nat × Meta × Meta),
        (strs.foldl (Pe.transStrsStep idx) st).2.2 = st.2.2 := by
  intro strs
  induction strs with
  | nil => intro _ st; rfl
  | cons kv t ih =>
    intro hall st
    rw [List.foldl_cons, ih (fun x hx => hall x (List.mem_cons_of_mem kv hx))]
    unfold Pe.transStrsStep
    have h2 : kv.2 = ([] : RStr) := hall kv (List.mem_cons_self kv t)
    simp [h2]

theorem transFold_meta (q : RStr)
    (hqT : (S "Translation_").isPrefixOf q = false)
    (hqD : (S "Debug_").isPrefixOf q = false)
    (hqS : (S "StringsInTranslation_").isPrefixOf q = false) :
    ∀ (ps : List (Nat × PeliteTrans)) (st : Meta × Meta × List Nat),
      mfind (ps.foldl Pe.transStep st).1 q = mfind st.1 q := by
  intro ps
  induction ps with
  | nil => intro st; rfl
  | cons p t ih =>
    intro st
    rw [List.foldl_cons, ih]
    unfold Pe.transStep
    simp only []
    rw [mfind_minsert, if_neg (fun he => append_key_ne _ _ _ hqS he.symm),
      transStrsFold_meta p.1 q hqD]
    simp only []
    rw [mfind_minsert, if_neg (fun he => append_key_ne _ _ _ hqT he.symm)]

theorem transFold_alls :
    ∀ (ps : List (Nat × PeliteTrans)), (∀ p ∈ ps, ∀ kv ∈ p.2.strs, kv.2 = ([] : RStr)) →
      ∀ (st : Meta × Meta × List Nat),
        (ps.foldl Pe.transStep st).2.1 = st.2.1 := by
  intro ps
  induction ps with
  | nil => intro _ st; rfl
  | cons p t ih =>
    intro hall st
    rw [List.foldl_cons, ih (fun x hx => hall x (List.mem_cons_of_mem p hx))]
    unfold Pe.transStep
    simp only []
    rw [transStrsFold_alls p.1 p.2.strs (hall p (List.mem_cons_self p t))]

theorem mem_of_mem_enumFrom {α : Type} :
    ∀ (l : List α) (n : Nat) (p : Nat × α), p ∈ l.enumFrom n → p.2 ∈ l := by
  intro l
  induction l with
  | nil => intro n p hp; simp [List.enumFrom] at hp
  | cons x t ih =>
    intro n p hp
    rw [List.enumFrom] at hp
    rcases List.mem_cons.mp hp with hp | hp
    · rw [hp]; exact List.mem_cons_self x t
    · exact List.mem_cons_of_mem x (ih (n + 1) p hp)

theorem viFixedBlock_find_ne (f : Option PeliteFixed) (m : Meta) (q : RStr)
    (h1 : ¬ q = S "FileVersionNumber") (h2 : ¬ q = S "ProductVersionNumber")
    (h3 : ¬ q = S "FileFlags") (h4 : ¬ q = S "FileOS") (h5 : ¬ q = S "FileType") :
    mfind (Pe.viFixedBlock f m) q = mfind m q := by
  unfold Pe.viFixedBlock
  repeat' split <;> try simp [mfind_minsert, h1, h2, h3, h4, h5]

theorem viNoStrings_spec (meta : Meta) (company : RStr)
    (hcomp : mfind meta (S "CompanyName") = some company)
    (hsigned : mhas meta (S "SignedBy") = true)
    (hnosfx : containsSub company (S "from digital signature") = false) :
    mfind (Pe.viNoStringsBlock meta) (S "CompanyName") =
      some (company ++ S " (from digital signature)") ∧
    mfind (Pe.viNoStringsBlock meta) (S "Publisher") =
      (mfind meta (S "Publisher")).map (fun p => p ++ S " (from digital signature)") ∧
    mfind (Pe.viNoStringsBlock meta) (S "Vendor") =
      (mfind meta (S "Vendor")).map (fun v => v ++ S " (from digital signature)") := by
  have h1 : mfind (minsert meta (S "NoStringsFound") (S "true")) (S "CompanyName") =
      some company := by
    rw [mfind_minsert, if_neg (by decide)]; exact hcomp
  have hcond : mhas (minsert meta (S "NoStringsFound") (S "true")) (S "SignedBy") = true ∧
      ¬ containsSub company (S "from digital signature") = true := by
    constructor
    · rw [mhas_minsert, if_neg (by decide)]; exact hsigned
    · simp [hnosfx]
  unfold Pe.viNoStringsBlock
  simp only [h1]
  rw [if_pos hcond]
  cases hP : mfind meta (S "Publisher") <;> cases hV : mfind meta (S "Vendor") <;>
    simp_all +decide [mfind_minsert, mhas_minsert, mhas]






/-- C6 corrected: in the source (pe.rs extract_pe64_metadata), the
" (from digital signature)" suffix for CompanyName/Publisher/Vendor is applied
only in the branch where the version-info string table produced NO strings at
all; when every translation string value is empty, a CompanyName found earlier
(by the signature scan) together with SignedBy does get the suffix, and
Publisher/Vendor get it exactly when present. -/
theorem C6_amended (ver : PeliteVer) (meta : Meta) (company : RStr)
    (hempty : ∀ tr ∈ ver.translations, ∀ kv ∈ tr.strs, kv.2 = ([] : RStr))
    (hcomp : mfind meta (S "CompanyName") = some company)
    (hsigned : mhas meta (S "SignedBy") = true)
    (hnosfx : containsSub company (S "from digital signature") = false) :
    mfind (Pe.versionInfoExtract ver meta) (S "CompanyName") =
      some (company ++ S " (from digital signature)") ∧
    mfind (Pe.versionInfoExtract ver meta) (S "Publisher") =
      (mfind meta (S "Publisher")).map (fun p => p ++ S " (from digital signature)") ∧
    mfind (Pe.versionInfoExtract ver meta) (S "Vendor") =
      (mfind meta (S "Vendor")).map (fun v => v ++ S " (from digital signature)") := by
  have henum : ∀ p ∈ ver.translations.enum, ∀ kv ∈ p.2.strs, kv.2 = ([] : RStr) := by
    intro p hp kv hkv
    exact hempty p.2 (mem_of_mem_enumFrom ver.translations 0 p hp) kv hkv
  unfold Pe.versionInfoExtract Pe.transLoop
  simp only []
  set m3 := minsert (Pe.viFixedBlock ver.fixed (minsert meta (S "HasVersionInfo") (S "true")))
    (S "TranslationCount") (natDec ver.translations.length) with hm3
  have halls : (List.foldl Pe.transStep (m3, [], []) ver.translations.enum).2.1 = [] :=
    transFold_alls ver.translations.enum henum (m3, [], [])
  set res := List.foldl Pe.transStep (m3, [], []) ver.translations.enum with hres
  set m6 := minsert (minsert res.1 (S "TotalCallbackCalls")
      (natDec (res.2.2.foldl (· + ·) 0))) (S "StringsCount") (natDec res.2.1.length) with hm6
  have hfind : ∀ q : RStr, ¬ q = S "HasVersionInfo" → ¬ q = S "TranslationCount" →
      ¬ q = S "TotalCallbackCalls" → ¬ q = S "StringsCount" →
      ¬ q = S "FileVersionNumber" → ¬ q = S "ProductVersionNumber" →
      ¬ q = S "FileFlags" → ¬ q = S "FileOS" → ¬ q = S "FileType" →
      (S "Translation_").isPrefixOf q = false → (S "Debug_").isPrefixOf q = false →
      (S "StringsInTranslation_").isPrefixOf q = false →
      mfind m6 q = mfind meta q := by
    intro q n1 n2 n3 n4 n5 n6 n7 n8 n9 npT npD npS
    rw [hm6, mfind_minsert, if_neg n4, mfind_minsert, if_neg n3, hres,
      transFold_meta q npT npD npS, hm3]
    simp only []
    rw [mfind_minsert, if_neg n2, viFixedBlock_find_ne _ _ _ n5 n6 n7 n8 n9,
      mfind_minsert, if_neg n1]
  have hcomp6 : mfind m6 (S "CompanyName") = some company := by
    rw [hfind _ (by decide) (by decide) (by decide) (by decide) (by decide) (by decide)
      (by decide) (by decide) (by decide) (by decide) (by decide) (by decide)]
    exact hcomp
  have hsigned6 : mhas m6 (S "SignedBy") = true := by
    unfold mhas
    rw [hfind _ (by decide) (by decide) (by decide) (by decide) (by decide) (by decide)
      (by decide) (by decide) (by decide) (by decide) (by decide) (by decide)]
    exact hsigned
  have hp6 : mfind m6 (S "Publisher") = mfind meta (S "Publisher") :=
    hfind _ (by decide) (by decide) (by decide) (by decide) (by decide) (by decide)
      (by decide) (by decide) (by decide) (by decide) (by decide) (by decide)
  have hv6 : mfind m6 (S "Vendor") = mfind meta (S "Vendor") :=
    hfind _ (by decide) (by decide) (by decide) (by decide) (by decide) (by decide)
      (by decide) (by decide) (by decide) (by decide) (by decide) (by decide)
  rw [halls]
  rw [if_neg (by simp)]
  obtain ⟨c1, c2, c3⟩ := viNoStrings_spec m6 company hcomp6 hsigned6 hnosfx
  exact ⟨c1, by rw [c2, hp6], by rw [c3, hv6]⟩

/-- C6 counterexample: with a pelite version-info string table carrying
CompanyName = "TableCo" and a signature scan yielding SignedBy = "Acme Corp",
the extraction returns CompanyName/Publisher/Vendor = "TableCo" with no
" (from digital signature)" suffix, refuting the claim. -/
theorem C6_counterexample :
    (Pe.parse_metadata ctx6 buf6).toOption.bind (fun m => mfind m (S "SignedBy")) =
      some (S "Acme Corp") ∧
    (Pe.parse_metadata ctx6 buf6).toOption.bind (fun m => mfind m (S "CompanyName")) =
      some (S "TableCo") ∧
    (Pe.parse_metadata ctx6 buf6).toOption.bind (fun m => mfind m (S "Publisher")) =
      some (S "TableCo") ∧
    (Pe.parse_metadata ctx6 buf6).toOption.bind (fun m => mfind m (S "Vendor")) =
      some (S "TableCo") := by decide

/-- C6 witness: the amended theorem applied at an empty translation list and a
concrete map holding CompanyName, SignedBy and Publisher. -/
theorem C6_witness :
    mfind (Pe.versionInfoExtract ⟨none, []⟩ [(S "CompanyName", S "Acme"),
      (S "SignedBy", S "AC"), (S "Publisher", S "Pub")]) (S "CompanyName") =
      some (S "Acme (from digital signature)") ∧
    mfind (Pe.versionInfoExtract ⟨none, []⟩ [(S "CompanyName", S "Acme"),
      (S "SignedBy", S "AC"), (S "Publisher", S "Pub")]) (S "Publisher") =
      some (S "Pub (from digital signature)") ∧
    mfind (Pe.versionInfoExtract ⟨none, []⟩ [(S "CompanyName", S "Acme"),
      (S "SignedBy", S "AC"), (S "Publisher", S "Pub")]) (S "Vendor") = none := by
  have h := C6_amended ⟨none, []⟩
    [(S "CompanyName", S "Acme"), (S "SignedBy", S "AC"), (S "Publisher", S "Pub")]
    (S "Acme") (fun tr htr => absurd htr (List.not_mem_nil tr)) (by decide) (by decide)
    (by decide)
  refine ⟨?_, ?_, ?_⟩
  · rw [h.1]; decide
  · rw [h.2.1]; decide
  · rw [h.2.2]; decide

theorem controlLine_mono (meta : Meta) (line q : RStr) (h : mhas meta q = true) :
    mhas (Deb.controlLine meta line) q = true := by
  unfold Deb.controlLine
  repeat' split <;> try simp [mhas_minsert, h]

theorem foldl_controlLine_mono (ls : List RStr) :
    ∀ meta : Meta, ∀ q : RStr, mhas meta q = true →
      mhas (ls.foldl Deb.controlLine meta) q = true := by
  induction ls with
  | nil => intro meta q h; exact h
  | cons hd tl ih =>
    intro meta q h
    exact ih (Deb.controlLine meta hd) q (controlLine_mono meta hd q h)

theorem controlLine_has (meta : Meta) (line k v : RStr)
    (hsplit : splitOnceByte 58 line = some (k, v))
    (hk : ¬ rtrim k = []) (hv : ¬ rtrim v = []) :
    mhas (Deb.controlLine meta line) (rtrim k) = true := by
  unfold Deb.controlLine
  rw [hsplit]
  simp only []
  rw [if_pos ⟨hk, hv⟩]
  split <;> simp [mhas_minsert]

theorem arWalk_skip (pre : List (Except RStr ArEnt))
    (hpre : ∀ er ∈ pre, ∃ a, er = Except.ok a ∧
      (S "control.tar").isPrefixOf (Deb.entryName a) = false) :
    ∀ (meta : Meta) (rest : List (Except RStr ArEnt)),
      Deb.arWalk meta (pre ++ rest) = Deb.arWalk meta rest := by
  induction pre with
  | nil => intro meta rest; rfl
  | cons er tl ih =>
    intro meta rest
    obtain ⟨a, he, hname⟩ := hpre er (List.mem_cons_self er tl)
    subst he
    show Deb.arWalk meta (Except.ok a :: (tl ++ rest)) = _
    simp only [Deb.arWalk, hname]
    exact ih (fun x hx => hpre x (List.mem_cons_of_mem _ hx)) meta rest

theorem tarWalk_skip (tpre : List (Except RStr TarEnt))
    (hpre : ∀ er ∈ tpre, ∃ t2 p2, er = Except.ok t2 ∧ t2.path = Except.ok p2 ∧
      ¬ (p2 = some (S "control") ∨ p2 = some (S "./control"))) :
    ∀ (meta : Meta) (rest : List (Except RStr TarEnt)),
      Deb.tarWalk meta (tpre ++ rest) = Deb.tarWalk meta rest := by
  induction tpre with
  | nil => intro meta rest; rfl
  | cons er tl ih =>
    intro meta rest
    obtain ⟨t2, p2, he, hp, hnp⟩ := hpre er (List.mem_cons_self er tl)
    subst he
    show Deb.tarWalk meta (Except.ok t2 :: (tl ++ rest)) = _
    simp only [Deb.tarWalk, hp]
    rw [if_neg hnp]
    exact ih (fun x hx => hpre x (List.mem_cons_of_mem _ hx)) meta rest

/-- C8: DEB error handling and control parsing.  The conjuncts: an ar listing
with no ok-entry named `control.tar*` always errors; a first matching member not
ending in `.gz` gives the unsupported-compression error with the member name; a
gzip member whose tar holds `control` or `./control` with content `c` returns
`parse_control_file c` over `{Format: DEB}`; an empty control file changes
nothing (so only Format=DEB results); and every `Key: Value` line with nonempty
trimmed key and value puts its trimmed key in the result map. -/
theorem C8_deb :
    (∀ (meta : Meta) (entries : List (Except RStr ArEnt)),
      (∀ er ∈ entries, ∀ a : ArEnt, er = Except.ok a →
        (S "control.tar").isPrefixOf (Deb.entryName a) = false) →
      ∃ e, Deb.arWalk meta entries = .error e) ∧
    (∀ (ctx : Ctx) (data : RStr) (pre rest : List (Except RStr ArEnt)) (entry : ArEnt),
      ctx.arEntries data = pre ++ Except.ok entry :: rest →
      (∀ er ∈ pre, ∃ a, er = Except.ok a ∧
        (S "control.tar").isPrefixOf (Deb.entryName a) = false) →
      (S "control.tar").isPrefixOf (Deb.entryName entry) = true →
      (S ".gz").isSuffixOf (Deb.entryName entry) = false →
      Deb.parse_metadata ctx data =
        .error (S "Unsupported control archive compression: " ++ Deb.entryName entry)) ∧
    (∀ (ctx : Ctx) (data : RStr) (pre rest : List (Except RStr ArEnt)) (entry : ArEnt)
       (tpre trest : List (Except RStr TarEnt)) (te : TarEnt) (p : Option RStr)
       (c : RStr),
      ctx.arEntries data = pre ++ Except.ok entry :: rest →
      (∀ er ∈ pre, ∃ a, er = Except.ok a ∧
        (S "control.tar").isPrefixOf (Deb.entryName a) = false) →
      (S "control.tar").isPrefixOf (Deb.entryName entry) = true →
      (S ".gz").isSuffixOf (Deb.entryName entry) = true →
      entry.tar = .ok (tpre ++ Except.ok te :: trest) →
      (∀ er ∈ tpre, ∃ t2 p2, er = Except.ok t2 ∧ t2.path = Except.ok p2 ∧
        ¬ (p2 = some (S "control") ∨ p2 = some (S "./control"))) →
      te.path = .ok p → (p = some (S "control") ∨ p = some (S "./control")) →
      te.content = .ok c →
      Deb.parse_metadata ctx data =
        .ok (Deb.parse_control_file c [(S "Format", S "DEB")])) ∧
    (∀ meta : Meta, Deb.parse_control_file [] meta = meta) ∧
    (∀ (content : RStr) (meta : Meta) (line k v : RStr), line ∈ rlines content →
      splitOnceByte 58 line = some (k, v) → ¬ rtrim k = [] → ¬ rtrim v = [] →
      mhas (Deb.parse_control_file content meta) (rtrim k) = true) := by
  refine ⟨?_, ?_, ?_, ?_, ?_⟩
  · intro meta entries h
    induction entries with
    | nil => exact ⟨_, rfl⟩
    | cons er tl ih =>
      cases er with
      | error e => exact ⟨_, rfl⟩
      | ok a =>
        have hname := h _ (List.mem_cons_self _ tl) a rfl
        have hskip : Deb.arWalk meta (Except.ok a :: tl) = Deb.arWalk meta tl := by
          have := arWalk_skip [Except.ok a]
            (fun x hx => ⟨a, by simpa using hx, hname⟩) meta tl
          simpa using this
        rw [hskip]
        exact ih (fun er he a2 ha2 => h er (List.mem_cons_of_mem _ he) a2 ha2)
  · intro ctx data pre rest entry har hpre hmatch hgz
    unfold Deb.parse_metadata
    rw [har]
    rw [arWalk_skip pre hpre]
    simp only [Deb.arWalk, hmatch, hgz]
    rfl
  · intro ctx data pre rest entry tpre trest te p c har hpre hmatch hgz htar htpre hp hctl hc
    unfold Deb.parse_metadata
    rw [har]
    rw [arWalk_skip pre hpre]
    simp only [Deb.arWalk, hmatch, hgz, htar]
    rw [tarWalk_skip tpre htpre]
    simp only [Deb.tarWalk, hp]
    rw [if_pos hctl]
    rw [hc]
    simp [minsert]
  · intro meta; rfl
  · intro content meta line k v hline hsplit hk hv
    unfold Deb.parse_control_file
    have hgen : ∀ ls : List RStr, line ∈ ls → ∀ m : Meta,
        mhas (ls.foldl Deb.controlLine m) (rtrim k) = true := by
      intro ls
      induction ls with
      | nil => intro hmem; cases hmem
      | cons hd tl ih =>
        intro hmem m
        rcases List.mem_cons.mp hmem with he | ht
        · subst he
          show mhas (tl.foldl Deb.controlLine (Deb.controlLine m line)) (rtrim k) = true
          exact foldl_controlLine_mono tl _ _ (controlLine_has m line k v hsplit hk hv)
        · exact ih ht (Deb.controlLine m hd)
    exact hgen (rlines content) hline meta

/-- C8 witness: the theorem applied to the two-member archive `debEntries`
(a `debian-binary` member then `control.tar.gz` holding `./control` with three
`Key: Value` lines), to the `Package` line, and to the empty listing. -/
theorem C8_witness :
    Deb.parse_metadata ctxDeb debBuf =
      .ok (Deb.parse_control_file debControl [(S "Format", S "DEB")]) ∧
    mhas (Deb.parse_control_file debControl [(S "Format", S "DEB")]) (S "Package") = true ∧
    (∃ e, Deb.arWalk [(S "Format", S "DEB")] [] = Except.error e) := by
  refine ⟨?_, ?_, ?_⟩
  · exact C8_deb.2.2.1 ctxDeb debBuf
      [Except.ok ⟨S "debian-binary", Except.error (S "not a gzip")⟩] []
      ⟨S "control.tar.gz",
        Except.ok [Except.ok ⟨Except.ok (some (S "./control")), Except.ok debControl⟩]⟩
      [] [] ⟨Except.ok (some (S "./control")), Except.ok debControl⟩
      (some (S "./control")) debControl
      (by decide)
      (by
        intro er he
        rw [List.mem_singleton] at he
        subst he
        exact ⟨_, rfl, by decide⟩)
      (by decide) (by decide) rfl
      (fun er he => absurd he (List.not_mem_nil er))
      rfl (Or.inr rfl) rfl
  · have h := C8_deb.2.2.2.2 debControl [(S "Format", S "DEB")] (S "Package: pkg")
      (S "Package") (S " pkg") (by decide) (by decide) (by decide) (by decide)
    have hr : rtrim (S "Package") = S "Package" := by decide
    rw [hr] at h
    exact h
  · exact C8_deb.1 [(S "Format", S "DEB")] []
      (fun er he a ha => absurd he (List.not_mem_nil er))

theorem is_dmg_koly (data : RStr) (h : Dmg.is_dmg_file data = true) :
    512 ≤ data.length ∧
    slice data (data.length - 512) (data.length - 512 + 4) = S "koly" := by
  by_cases h1 : data.length < 512
  · rw [Dmg.is_dmg_file, if_pos h1] at h
    exact absurd h (by simp)
  · refine ⟨by omega, ?_⟩
    rw [Dmg.is_dmg_file, if_neg h1] at h
    simp only [] at h
    by_cases h2 : slice data (data.length - 512) (data.length - 512 + 4) = S "koly"
    · exact h2
    · rw [if_neg h2] at h
      split at h
      · rw [if_neg (fun hc => h2 hc.2)] at h
        exact absurd h (by simp)
      · exact absurd h (by simp)

theorem pppFold_find_ne (ctx : Ctx) (dict : List (RStr × PlistVal)) (q : RStr) :
    ∀ ps : List (RStr × RStr), (∀ p ∈ ps, ¬ q = p.2) →
      ∀ meta : Meta, mfind (ps.foldl (Dmg.pppStep ctx dict) meta) q = mfind meta q := by
  intro ps
  induction ps with
  | nil => intro h meta; rfl
  | cons p t ih =>
    intro h meta
    have hp := h p (List.mem_cons_self p t)
    have ht := fun x hx => h x (List.mem_cons_of_mem p hx)
    show mfind (t.foldl (Dmg.pppStep ctx dict) (Dmg.pppStep ctx dict meta p)) q = _
    rw [ih ht]
    unfold Dmg.pppStep
    repeat' split <;> try simp [mfind_minsert, hp]

theorem pppSynth_find_ne (ctx : Ctx) (meta : Meta) (q : RStr)
    (hPN : ¬ q = S "ProductName") (hFV : ¬ q = S "FileVersion")
    (hCN : ¬ q = S "CompanyName") :
    mfind (Dmg.pppSynth ctx meta) q = mfind meta q := by
  unfold Dmg.pppSynth
  repeat' split <;> try simp [mfind_minsert, hPN, hFV, hCN]

theorem parse_plist_properly_find_ne (ctx : Ctx) (pd : RStr) (meta : Meta) (q : RStr)
    (h13 : ∀ p ∈ Dmg.keys_to_extract, ¬ q = p.2)
    (hPN : ¬ q = S "ProductName") (hFV : ¬ q = S "FileVersion")
    (hCN : ¬ q = S "CompanyName") :
    mfind (Dmg.parse_plist_properly ctx pd meta) q = mfind meta q := by
  unfold Dmg.parse_plist_properly
  split
  · rw [pppSynth_find_ne _ _ _ hPN hFV hCN, pppFold_find_ne ctx _ q Dmg.keys_to_extract h13]
  · rfl

theorem epiNameBlock_find_ne (ds : RStr) (meta : Meta) (q : RStr)
    (hPN : ¬ q = S "ProductName") :
    mfind (Dmg.epiNameBlock ds meta) q = mfind meta q := by
  unfold Dmg.epiNameBlock
  repeat' split <;> try simp [mfind_minsert, hPN]

theorem epiDisplayBlock_find_ne (ds : RStr) (meta : Meta) (q : RStr)
    (hPN : ¬ q = S "ProductName") (hDN : ¬ q = S "DisplayName") :
    mfind (Dmg.epiDisplayBlock ds meta) q = mfind meta q := by
  unfold Dmg.epiDisplayBlock
  repeat' split <;> try simp [mfind_minsert, hPN, hDN]

theorem epiShortVerBlock_find_ne (ds : RStr) (meta : Meta) (q : RStr)
    (hPV : ¬ q = S "ProductVersion") (hFV : ¬ q = S "FileVersion") :
    mfind (Dmg.epiShortVerBlock ds meta) q = mfind meta q := by
  unfold Dmg.epiShortVerBlock
  repeat' split <;> try simp [mfind_minsert, hPV, hFV]

theorem epiBundleVerBlock_find_ne (ds : RStr) (meta : Meta) (q : RStr)
    (hPV : ¬ q = S "ProductVersion") (hFV : ¬ q = S "FileVersion")
    (hFVN : ¬ q = S "FileVersionNumber") :
    mfind (Dmg.epiBundleVerBlock ds meta) q = mfind meta q := by
  unfold Dmg.epiBundleVerBlock
  repeat' split <;> try simp [mfind_minsert, hPV, hFV, hFVN]

theorem epiCopyrightBlock_find_ne (ds : RStr) (meta : Meta) (q : RStr)
    (hLC : ¬ q = S "LegalCopyright") :
    mfind (Dmg.epiCopyrightBlock ds meta) q = mfind meta q := by
  unfold Dmg.epiCopyrightBlock
  repeat' split <;> try simp [mfind_minsert, hLC]

theorem epiInfoBlock_find_ne (ds : RStr) (meta : Meta) (q : RStr)
    (hFD : ¬ q = S "FileDescription") :
    mfind (Dmg.epiInfoBlock ds meta) q = mfind meta q := by
  unfold Dmg.epiInfoBlock
  repeat' split <;> try simp [mfind_minsert, hFD]

theorem epiCategoryBlock_find_ne (ctx : Ctx) (ds : RStr) (meta : Meta) (q : RStr)
    (hAC : ¬ q = S "ApplicationCategory") :
    mfind (Dmg.epiCategoryBlock ctx ds meta) q = mfind meta q := by
  unfold Dmg.epiCategoryBlock
  repeat' split <;> try simp [mfind_minsert, hAC]

theorem epiPrincipalBlock_find_ne (ds : RStr) (meta : Meta) (q : RStr)
    (hPC : ¬ q = S "PrincipalClass") :
    mfind (Dmg.epiPrincipalBlock ds meta) q = mfind meta q := by
  unfold Dmg.epiPrincipalBlock
  repeat' split <;> try simp [mfind_minsert, hPC]

theorem extract_plist_info_find_ne (ctx : Ctx) (ds : RStr) (meta : Meta) (q : RStr)
    (hPN : ¬ q = S "ProductName") (hDN : ¬ q = S "DisplayName")
    (hPV : ¬ q = S "ProductVersion") (hFV : ¬ q = S "FileVersion")
    (hFVN : ¬ q = S "FileVersionNumber") (hLC : ¬ q = S "LegalCopyright")
    (hFD : ¬ q = S "FileDescription") (hAC : ¬ q = S "ApplicationCategory")
    (hPC : ¬ q = S "PrincipalClass") :
    mfind (Dmg.extract_plist_info ctx ds meta) q = mfind meta q := by
  unfold Dmg.extract_plist_info
  rw [epiPrincipalBlock_find_ne _ _ _ hPC, epiCategoryBlock_find_ne _ _ _ _ hAC,
    epiInfoBlock_find_ne _ _ _ hFD, epiCopyrightBlock_find_ne _ _ _ hLC,
    epiBundleVerBlock_find_ne _ _ _ hPV hFV hFVN, epiShortVerBlock_find_ne _ _ _ hPV hFV,
    epiDisplayBlock_find_ne _ _ _ hPN hDN, epiNameBlock_find_ne _ _ _ hPN]

theorem extract_version_strings_find_ne (ctx : Ctx) (ds : RStr) (meta : Meta) (q : RStr)
    (hPV : ¬ q = S "ProductVersion") (hFV : ¬ q = S "FileVersion") :
    mfind (Dmg.extract_version_strings ctx ds meta) q = mfind meta q := by
  unfold Dmg.extract_version_strings
  repeat' split <;> try simp [mfind_minsert, hPV, hFV]

theorem extract_bundle_info_find_ne (ctx : Ctx) (ds : RStr) (meta : Meta) (q : RStr)
    (hBI : ¬ q = S "BundleIdentifier") (hCN : ¬ q = S "CompanyName")
    (hMan : ¬ q = S "Manufacturer") :
    mfind (Dmg.extract_bundle_info ctx ds meta) q = mfind meta q := by
  unfold Dmg.extract_bundle_info
  repeat' split <;> try simp [mfind_minsert, hBI, hCN, hMan]

theorem devStep_none (ctx : Ctx) (ds pat : RStr) :
    Dmg.devStep ctx ds none pat = none := rfl

theorem devStep_pres (ctx : Ctx) (ds q : RStr)
    (hCN : ¬ q = S "CompanyName") (hPub : ¬ q = S "Publisher") :
    ∀ (m1 m2 : Meta) (pat : RStr),
      Dmg.devStep ctx ds (some m1) pat = some m2 → mfind m2 q = mfind m1 q := by
  intro m1 m2 pat h
  unfold Dmg.devStep at h
  simp only [] at h
  repeat'
    first
      | exact Option.noConfusion h
      | (cases h; first | rfl | simp [mfind_minsert, hCN, hPub])
      | (split at h <;> try simp only [] at h)

theorem devFold_none (ctx : Ctx) (ds : RStr) :
    ∀ pats : List RStr, pats.foldl (Dmg.devStep ctx ds) none = none := by
  intro pats
  induction pats with
  | nil => rfl
  | cons p t ih =>
    show t.foldl (Dmg.devStep ctx ds) (Dmg.devStep ctx ds none p) = none
    rw [devStep_none]
    exact ih

theorem devFold_pres (ctx : Ctx) (ds q : RStr)
    (hCN : ¬ q = S "CompanyName") (hPub : ¬ q = S "Publisher") :
    ∀ (pats : List RStr) (m1 m2 : Meta),
      pats.foldl (Dmg.devStep ctx ds) (some m1) = some m2 → mfind m2 q = mfind m1 q := by
  intro pats
  induction pats with
  | nil =>
    intro m1 m2 h
    cases h
    rfl
  | cons p t ih =>
    intro m1 m2 h
    rw [List.foldl_cons] at h
    cases hs : Dmg.devStep ctx ds (some m1) p with
    | none =>
      rw [hs, devFold_none] at h
      exact Option.noConfusion h
    | some mm =>
      rw [hs] at h
      rw [ih mm m2 h, devStep_pres ctx ds q hCN hPub m1 mm p hs]

theorem extract_developer_info_pres (ctx : Ctx) (ds q : RStr) (m1 m2 : Meta)
    (hCN : ¬ q = S "CompanyName") (hPub : ¬ q = S "Publisher")
    (h : Dmg.extract_developer_info ctx ds m1 = some m2) :
    mfind m2 q = mfind m1 q := by
  unfold Dmg.extract_developer_info at h
  exact devFold_pres ctx ds q hCN hPub Dmg.devPatterns m1 m2 h

theorem appNameLoop_cons (ctx : Ctx) (ds : RStr) (meta : Meta) (p : Nat) (t : List Nat) :
    Dmg.appNameLoop ctx ds meta (p :: t) =
      match Dmg.appNameVisit ctx ds meta p with
      | none => none
      | some (some m) => some m
      | some none => Dmg.appNameLoop ctx ds meta t := rfl

theorem appNameVisit_pres (ctx : Ctx) (ds q : RStr) (meta m : Meta) (pos : Nat)
    (hPN : ¬ q = S "ProductName") (hAB : ¬ q = S "ApplicationBundle")
    (h : Dmg.appNameVisit ctx ds meta pos = some (some m)) :
    mfind m q = mfind meta q := by
  unfold Dmg.appNameVisit at h
  simp only [] at h
  repeat'
    first
      | exact Option.noConfusion h
      | (injection h with h2
         first
           | exact Option.noConfusion h2
           | (cases h2
              first
                | rfl
                | simp [mfind_minsert, hPN, hAB]))
      | (split at h <;> try simp only [] at h)

theorem appNameLoop_pres (ctx : Ctx) (ds q : RStr)
    (hPN : ¬ q = S "ProductName") (hAB : ¬ q = S "ApplicationBundle") :
    ∀ (ps : List Nat) (meta m2 : Meta),
      Dmg.appNameLoop ctx ds meta ps = some m2 → mfind m2 q = mfind meta q := by
  intro ps
  induction ps with
  | nil =>
    intro meta m2 h
    cases h
    rfl
  | cons p t ih =>
    intro meta m2 h
    rw [appNameLoop_cons] at h
    split at h
    · exact Option.noConfusion h
    · rename_i m heq
      cases h
      exact appNameVisit_pres ctx ds q meta m2 p hPN hAB heq
    · exact ih meta m2 h

theorem extract_app_names_pres (ctx : Ctx) (data q : RStr) (meta m2 : Meta)
    (hPN : ¬ q = S "ProductName") (hAB : ¬ q = S "ApplicationBundle")
    (h : Dmg.extract_app_names ctx data meta = some m2) :
    mfind m2 q = mfind meta q := by
  unfold Dmg.extract_app_names at h
  simp only [] at h
  split at h
  · exact Option.noConfusion h
  · rename_i meta5 heq
    have h5 := appNameLoop_pres ctx _ q hPN hAB _ meta meta5 heq
    split at h
    · split at h
      · cases h
        simp [mfind_minsert, hPN, h5]
      · split at h
        · cases h
          simp [mfind_minsert, hPN, h5]
        · cases h
          exact h5
    · cases h
      exact h5

theorem aliasPvBlock_find_ne (meta : Meta) (q : RStr)
    (h1 : ¬ q = S "FileVersion") (h2 : ¬ q = S "FileVersionNumber")
    (h3 : ¬ q = S "ProductVersionNumber") :
    mfind (Dmg.aliasPvBlock meta) q = mfind meta q := by
  unfold Dmg.aliasPvBlock
  repeat' split <;> try simp [mfind_minsert, h1, h2, h3]

theorem create_field_aliases_find_ne (meta : Meta) (q : RStr)
    (hPN : ¬ q = S "ProductName") (hPrg : ¬ q = S "ProgramName")
    (hFD : ¬ q = S "FileDescription") (hVen : ¬ q = S "Vendor")
    (hPub : ¬ q = S "Publisher") (hFV : ¬ q = S "FileVersion")
    (hFVN : ¬ q = S "FileVersionNumber") (hPVN : ¬ q = S "ProductVersionNumber") :
    mfind (Dmg.create_field_aliases meta) q = mfind meta q := by
  unfold Dmg.create_field_aliases
  rw [aliasFdBlock_find_ne _ _ hFD, aliasPvBlock_find_ne _ _ hFV hFVN hPVN,
    aliasCnBlock_find_ne _ _ hVen hPub, aliasPnBlock_find_ne _ _ hPN hPrg hFD]

theorem dmgHeurPhase_pres (ctx : Ctx) (data : RStr) (meta mh : Meta) (q : RStr)
    (hPN : ¬ q = S "ProductName") (hDN : ¬ q = S "DisplayName")
    (hPV : ¬ q = S "ProductVersion") (hFV : ¬ q = S "FileVersion")
    (hFVN : ¬ q = S "FileVersionNumber") (hLC : ¬ q = S "LegalCopyright")
    (hFD : ¬ q = S "FileDescription") (hAC : ¬ q = S "ApplicationCategory")
    (hPC : ¬ q = S "PrincipalClass") (hBI : ¬ q = S "BundleIdentifier")
    (hCN : ¬ q = S "CompanyName") (hMan : ¬ q = S "Manufacturer")
    (hPub : ¬ q = S "Publisher") (hAB : ¬ q = S "ApplicationBundle")
    (h : Dmg.dmgHeurPhase ctx data meta = some mh) :
    mfind mh q = mfind meta q := by
  unfold Dmg.dmgHeurPhase at h
  split at h
  · simp only [] at h
    split at h
    · exact Option.noConfusion h
    · rename_i meta5 heq
      have h4 : mfind meta5 q =
          mfind (Dmg.extract_bundle_info ctx (lossyBytes data)
            (Dmg.extract_version_strings ctx (lossyBytes data)
              (Dmg.extract_plist_info ctx (lossyBytes data) meta))) q :=
        extract_developer_info_pres ctx _ q _ meta5 hCN hPub heq
      have h3 : mfind meta5 q = mfind meta q := by
        rw [h4, extract_bundle_info_find_ne _ _ _ _ hBI hCN hMan,
          extract_version_strings_find_ne _ _ _ _ hPV hFV,
          extract_plist_info_find_ne _ _ _ _ hPN hDN hPV hFV hFVN hLC hFD hAC hPC]
      split at h
      · rw [extract_app_names_pres ctx data q meta5 mh hPN hAB h]
        exact h3
      · cases h
        exact h3
  · cases h
    rfl

theorem extract_product_info_pres (ctx : Ctx) (data : RStr) (meta m : Meta) (q : RStr)
    (hq : ∀ k ∈ Dmg.dmgHeurKeys, ¬ q = k)
    (h : Dmg.extract_product_info ctx data meta = some m) :
    mfind m q = mfind meta q := by
  have hPN := hq (S "ProductName") (by decide)
  have hDN := hq (S "DisplayName") (by decide)
  have hEN := hq (S "ExecutableName") (by decide)
  have hBI := hq (S "BundleIdentifier") (by decide)
  have hPV := hq (S "ProductVersion") (by decide)
  have hFV := hq (S "FileVersion") (by decide)
  have hFVN := hq (S "FileVersionNumber") (by decide)
  have hPVN := hq (S "ProductVersionNumber") (by decide)
  have hLC := hq (S "LegalCopyright") (by decide)
  have hFD := hq (S "FileDescription") (by decide)
  have hAC := hq (S "ApplicationCategory") (by decide)
  have hPT := hq (S "PackageType") (by decide)
  have hPC := hq (S "PrincipalClass") (by decide)
  have hIF := hq (S "IconFile") (by decide)
  have hMSV := hq (S "MinimumSystemVersion") (by decide)
  have hCN := hq (S "CompanyName") (by decide)
  have hMan := hq (S "Manufacturer") (by decide)
  have hPub := hq (S "Publisher") (by decide)
  have hVen := hq (S "Vendor") (by decide)
  have hPrg := hq (S "ProgramName") (by decide)
  have hAB := hq (S "ApplicationBundle") (by decide)
  have h13 : ∀ p ∈ Dmg.keys_to_extract, ¬ q = p.2 := by
    intro p hp
    fin_cases hp <;>
      first
        | exact hPN | exact hDN | exact hEN | exact hBI | exact hPV | exact hFV
        | exact hLC | exact hFD | exact hAC | exact hPT | exact hPC | exact hIF
        | exact hMSV
  unfold Dmg.extract_product_info at h
  split at h
  · exact Option.noConfusion h
  · rename_i plist? heq
    simp only [] at h
    obtain ⟨mh, hmh, hm⟩ := Option.map_eq_some'.mp h
    have hc : mfind m q = mfind mh q := by
      rw [← hm]
      exact create_field_aliases_find_ne mh q hPN hPrg hFD hVen hPub hFV hFVN hPVN
    have hh := dmgHeurPhase_pres ctx data _ mh q hPN hDN hPV hFV hFVN hLC hFD hAC hPC
      hBI hCN hMan hPub hAB hmh
    rw [hc, hh]
    cases plist? with
    | none => rfl
    | some pd => exact parse_plist_properly_find_ne ctx pd meta q h13 hPN hFV hCN

theorem dmgBaseMeta_facts (data : RStr) (hlen : 512 ≤ data.length)
    (hkoly : slice data (data.length - 512) (data.length - 512 + 4) = S "koly") :
    mfind (Dmg.dmgBaseMeta data) (S "Format") = some (S "DMG") ∧
    mfind (Dmg.dmgBaseMeta data) (S "Architecture") = some (S "macOS Disk Image") ∧
    mfind (Dmg.dmgBaseMeta data) (S "ImageType") = some (S "UDIF") ∧
    mfind (Dmg.dmgBaseMeta data) (S "HasKolySignature") = some (S "true") ∧
    mfind (Dmg.dmgBaseMeta data) (S "KolyOffset") = some (natDec (data.length - 512)) ∧
    (∃ c, mfind (Dmg.dmgBaseMeta data) (S "Compression") = some c) := by
  unfold Dmg.dmgBaseMeta
  simp only []
  rw [if_pos hlen, if_pos hkoly, if_pos (show 4 ≤ data.length by omega),
    if_pos (show data.length - 512 + 8 ≤ data.length by omega)]
  refine ⟨?_, ?_, ?_, ?_, ?_, ?_⟩ <;> simp +decide [mfind_minsert]

/-- C10 corrected: on every sniffer-accepted input on which the extraction
RETURNS (the Rust heuristics can panic on non-char-boundary slices, modelled by
`none`), the result carries Format=DMG, Architecture="macOS Disk Image",
ImageType=UDIF, HasKolySignature=true, KolyOffset = len-512 and a Compression
key; the always-returns-success half of the claim is refuted by the
counterexample. -/
theorem C10_amended (ctx : Ctx) (data : RStr) (m : Meta)
    (hdmg : Dmg.is_dmg_file data = true)
    (hparse : Dmg.parse_dmg_metadata ctx data = some m) :
    mfind m (S "Format") = some (S "DMG") ∧
    mfind m (S "Architecture") = some (S "macOS Disk Image") ∧
    mfind m (S "ImageType") = some (S "UDIF") ∧
    mfind m (S "HasKolySignature") = some (S "true") ∧
    mfind m (S "KolyOffset") = some (natDec (data.length - 512)) ∧
    (∃ c, mfind m (S "Compression") = some c) := by
  obtain ⟨hlen, hkoly⟩ := is_dmg_koly data hdmg
  obtain ⟨hF, hA, hI, hK, hKO, c, hC⟩ := dmgBaseMeta_facts data hlen hkoly
  unfold Dmg.parse_dmg_metadata at hparse
  have hpres := fun q hq =>
    extract_product_info_pres ctx data (Dmg.dmgBaseMeta data) m q hq hparse
  exact ⟨by rw [hpres _ (by decide)]; exact hF,
    by rw [hpres _ (by decide)]; exact hA,
    by rw [hpres _ (by decide)]; exact hI,
    by rw [hpres _ (by decide)]; exact hK,
    by rw [hpres _ (by decide)]; exact hKO,
    ⟨c, by rw [hpres _ (by decide)]; exact hC⟩⟩

set_option maxHeartbeats 1000000000 in
/-- C10 counterexample: a 512-byte sniffer-accepted DMG whose content puts a
multibyte character across the start of the ±100-byte context slice around an
`Inc.` match; the Rust heuristics panic there (the model returns `none`), so
extraction does not always return success. -/
theorem C10_counterexample :
    Dmg.is_dmg_file dmgAbort = true ∧
    Dmg.parse_dmg_metadata noCtx dmgAbort = none := by decide

set_option maxHeartbeats 1000000000 in
/-- C10 witness: the amended theorem applied to the plain 512-byte DMG, whose
extraction returns and carries all six invariant fields. -/
theorem C10_witness :
    mfind ((Dmg.parse_dmg_metadata noCtx dmgPlain).getD []) (S "Format") = some (S "DMG") ∧
    mfind ((Dmg.parse_dmg_metadata noCtx dmgPlain).getD []) (S "Architecture") =
      some (S "macOS Disk Image") ∧
    mfind ((Dmg.parse_dmg_metadata noCtx dmgPlain).getD []) (S "ImageType") =
      some (S "UDIF") ∧
    mfind ((Dmg.parse_dmg_metadata noCtx dmgPlain).getD []) (S "HasKolySignature") =
      some (S "true") ∧
    mfind ((Dmg.parse_dmg_metadata noCtx dmgPlain).getD []) (S "KolyOffset") =
      some (natDec (dmgPlain.length - 512)) ∧
    (∃ c, mfind ((Dmg.parse_dmg_metadata noCtx dmgPlain).getD []) (S "Compression") =
      some c) :=
  C10_amended noCtx dmgPlain ((Dmg.parse_dmg_metadata noCtx dmgPlain).getD [])
    (by decide) (by decide)

end UA
